import Mathlib

/-!
The executor and the worker of gojobs.

A shallow embedding of `executor.go` and `worker.go`.

* Durations are integers (nanoseconds, as `time.Duration`).
* The clock and the outcome of every `select` are supplied by an environment,
  so each function is a pure function of the environment.
* Side effects that leave a function (channel writes, callback invocations,
  timers) are recorded in a trace of events.
* `Destroy` runs several tasks at once; it is a transition system whose
  channels are explicit buffers and whose schedule is a list of actions.
-/

namespace Gojobs

/-! ## Data model -/

/-- Type `time.Duration`: a signed number of nanoseconds. -/
abbrev Duration := Int

/-- Modelled from the spec: `Payload` is declared outside the two source files;
it is the caller-supplied value handed to the processor. -/
abbrev Payload := Nat

/-- Modelled from the spec: `Result` and `Expired` are declared outside the two
source files; a result is either the distinguished `Expired` marker or a value
produced by a processor. -/
inductive Result where
  | Expired : Result
  | value (v : Nat) : Result
  deriving DecidableEq, Repr

/-- Modelled from the spec: the type of the records sent through a job's
result slot is declared outside the two source files; `processResult` reads
its fields `correlationId` and `result`. -/
structure output where
  correlationId : String
  result : Result
  deriving DecidableEq, Repr

/-- Modelled from the spec: `newOutput` is declared outside the two source
files; a Result record carries the correlation id of its job and the value. -/
def newOutput (correlationId : String) (result : Result) : output :=
  { correlationId := correlationId, result := result }

/-- Modelled from the spec: the `job` type is declared outside the two source
files; the fields are the ones `fire` and `run` read. `output` names the job's
own single-slot result channel. -/
structure job where
  correlationId : String
  payload : Payload
  expiresAfter : Duration
  output : Nat
  deriving DecidableEq, Repr

/-- Modelled from the spec: `Configuration` is declared outside the two source
files; these are the fields the executor reads (the logger settings are left
out). -/
structure Configuration where
  Workers : Nat
  Heartbeat : Duration
  deriving DecidableEq, Repr

/-! ## `min` -/

/-- Function `min` of `executor.go`. `NeverExpires` is a constant declared outside the
two source files and is taken as a parameter. -/
def min (NeverExpires : Duration) (first second : Duration) : Duration :=
  if first = NeverExpires then second
  else if second = NeverExpires then first
  else if first < second then first
  else second

/-! ## Callbacks and events -/

/-- How a call of a callback ends. -/
inductive CallOutcome where
  | returned : CallOutcome
  | panicked : CallOutcome
  deriving DecidableEq, Repr

/-- A non-nil `func(result Result)`: a tag naming it and what a call does. -/
structure Callback where
  tag : Nat
  body : Result → CallOutcome

/-- Effects of `fire`, `processResult` and the callback task. -/
inductive Event where
  /-- Timer `time.After(d)` armed by the `select` of `fire`. -/
  | sendTimer (d : Duration) : Event
  /-- Send `e.jobs <- job` went through. -/
  | enqueue (j : job) : Event
  /-- The loop test of `fire` failed; `observed` is the value of `time.Since`. -/
  | expire (observed : Duration) : Event
  /-- Send `job.output <- o` on result slot `slot`. -/
  | write (slot : Nat) (o : output) : Event
  /-- Timer `time.After(d)` armed by the `select` of `processResult`. -/
  | recvTimer (d : Duration) : Event
  /-- Receive `result := <-job.output` on result slot `slot`. -/
  | receive (slot : Nat) (o : output) : Event
  /-- Task `go func() ...` started in `processResult`. -/
  | spawn : Event
  /-- Call `callback(result.result)` of the callback at position `index`. -/
  | call (index : Nat) (tag : Nat) (r : Result) : Event
  /-- A nil entry at position `index` was skipped. -/
  | skip (index : Nat) : Event
  /-- The callback at position `index` panicked; the task unwinds. -/
  | panic (index : Nat) : Event
  deriving DecidableEq, Repr

/-- Where a run of `fire` stands: still in the send loop, still waiting in
`processResult`, or returned on one of its two paths. -/
inductive Phase where
  | polling : Phase
  | waiting : Phase
  | dispatched : Phase
  | expired : Phase
  deriving DecidableEq, Repr

/-- The observable part of a run. -/
structure Run where
  trace : List Event
  phase : Phase
  deriving DecidableEq, Repr

/-- Outcome of one `select` in `fire`. -/
inductive SendOutcome where
  | sent : SendOutcome
  | timedOut : SendOutcome
  deriving DecidableEq, Repr

/-- The environment of one job: the clock, the shared queue and the result slot.
* `since k` is `time.Since(registeredAt)` at the `k`-th loop test of `fire`;
* `attempt k` is the branch the `k`-th `select` of `fire` takes;
* `recv k` is what the `k`-th `select` of `processResult` receives from
  `job.output` (`none`: the heartbeat timer fired first);
* `handoff k` tells whether the `k`-th `select` of `ExecuteJob` meets a sender. -/
structure Env where
  since : Nat → Duration
  attempt : Nat → SendOutcome
  recv : Nat → Option output
  handoff : Nat → Bool

/-! ## `processResult` -/

/-- The body of the task started by `processResult`: the `range` loop over the
callbacks, from position `index` on. A panic is not recovered anywhere, so it
ends the loop. -/
def runCallbacks (result : Result) : Nat → List (Option Callback) → List Event
  | _, [] => []
  | index, none :: rest => Event.skip index :: runCallbacks result (index + 1) rest
  | index, some callback :: rest =>
    match callback.body result with
    | CallOutcome.returned =>
      Event.call index callback.tag result :: runCallbacks result (index + 1) rest
    | CallOutcome.panicked =>
      [Event.call index callback.tag result, Event.panic index]

/-- Function `processResult`: wait for the job's output, one heartbeat at a time, then
start the callback task and return. `k` counts the `select`s already done. -/
def processResult (configuration : Configuration) (env : Env) (j : job)
    (callbacks : List (Option Callback)) : Nat → Nat → Run
  | 0, _ => { trace := [], phase := Phase.waiting }
  | fuel + 1, k =>
    match env.recv k with
    | some result =>
      { trace := Event.receive j.output result :: Event.spawn ::
          runCallbacks result.result 0 callbacks
        phase := Phase.dispatched }
    | none =>
      let rest := processResult configuration env j callbacks fuel (k + 1)
      { trace := Event.recvTimer configuration.Heartbeat :: rest.trace
        phase := rest.phase }

/-! ## `fire` -/

/-- The loop of `fire` from its `k`-th test on. `waitFuel` bounds the wait in
`processResult`, the first `Nat` the number of loop tests. The send on
`job.output` after the loop is taken to go through: the slot holds one result
and nothing else writes to the slot of a job that was never enqueued. -/
def fireLoop (NeverExpires : Duration) (configuration : Configuration) (env : Env)
    (j : job) (callbacks : List (Option Callback)) (waitFuel : Nat) : Nat → Nat → Run
  | 0, _ => { trace := [], phase := Phase.polling }
  | fuel + 1, k =>
    if j.expiresAfter = NeverExpires ∨ env.since k < j.expiresAfter then
      let timer := Event.sendTimer (min NeverExpires configuration.Heartbeat j.expiresAfter)
      match env.attempt k with
      | SendOutcome.sent =>
        let rest := processResult configuration env j callbacks waitFuel 0
        { trace := timer :: Event.enqueue j :: rest.trace, phase := rest.phase }
      | SendOutcome.timedOut =>
        let rest := fireLoop NeverExpires configuration env j callbacks waitFuel fuel (k + 1)
        { trace := timer :: rest.trace, phase := rest.phase }
    else
      { trace := [Event.expire (env.since k),
                  Event.write j.output (newOutput j.correlationId Result.Expired)]
        phase := Phase.expired }

/-- Function `fire`, run for at most `fuel` loop tests and `fuel` waits. -/
def fire (NeverExpires : Duration) (configuration : Configuration) (env : Env)
    (j : job) (callbacks : List (Option Callback)) (fuel : Nat) : Run :=
  fireLoop NeverExpires configuration env j callbacks fuel fuel 0

/-- Whether `fire` has returned. -/
def Run.returned (r : Run) : Bool :=
  r.phase = Phase.dispatched ∨ r.phase = Phase.expired

/-! ## Observations on a trace -/

/-- The jobs put on the shared queue. -/
def enqueued : List Event → List job
  | [] => []
  | Event.enqueue j :: rest => j :: enqueued rest
  | _ :: rest => enqueued rest

/-- The writes to result slots, in order. -/
def written : List Event → List (Nat × output)
  | [] => []
  | Event.write slot o :: rest => (slot, o) :: written rest
  | _ :: rest => written rest

/-- The timeouts of the polls of `fire`, in order. -/
def sendTimers : List Event → List Duration
  | [] => []
  | Event.sendTimer d :: rest => d :: sendTimers rest
  | _ :: rest => sendTimers rest

/-- The callback invocations: position, tag and argument, in order. -/
def calls : List Event → List (Nat × Nat × Result)
  | [] => []
  | Event.call index tag r :: rest => (index, tag, r) :: calls rest
  | _ :: rest => calls rest

/-- The elapsed times at which expiry was declared. -/
def expiries : List Event → List Duration
  | [] => []
  | Event.expire observed :: rest => observed :: expiries rest
  | _ :: rest => expiries rest

/-! ## `FireJob` and `ExecuteJob` -/

/-- What `FireJob` leaves behind: the error it returns and the run of the task
it started with `go e.fire(job, callbacks...)`, if any. `newJob` is declared
outside the two source files and is taken as a parameter. -/
def FireJob (NeverExpires : Duration) (configuration : Configuration) (env : Env)
    (newJob : Payload → Except String job) (payload : Payload)
    (callbacks : List (Option Callback)) (fuel : Nat) : Option String × Option Run :=
  match newJob payload with
  | Except.error err => (some err, none)
  | Except.ok j => (none, some (fire NeverExpires configuration env j callbacks fuel))

/-- The callback `ExecuteJob` passes to `fire`: it offers its argument on the
private channel and returns once the value is taken. -/
def forward : Callback :=
  { tag := 0, body := fun _ => CallOutcome.returned }

/-- The values offered on the private channel of `ExecuteJob`: one per call
of the forwarding callback. -/
def offered (t : List Event) : List Result :=
  (calls t).map (fun c => c.2.2)

/-- The receive loop of `ExecuteJob` from its `k`-th `select` on: a value is
returned with a nil error once an offered value is handed over; otherwise the
heartbeat timer fires and the loop goes round. Nothing closes the channel, so
the `more = false` branch is never taken. `none`: still looping. -/
def awaitResult (env : Env) (pending : List Result) : Nat → Nat → Option (Result × Option String)
  | 0, _ => none
  | fuel + 1, k =>
    match pending with
    | r :: _ => if env.handoff k then some (r, none) else awaitResult env pending fuel (k + 1)
    | [] => awaitResult env pending fuel (k + 1)

/-- Function `ExecuteJob`: `fire` runs on the caller's own task, then the caller
loops on the private channel. `none`: it has not returned within `fuel`. -/
def ExecuteJob (NeverExpires : Duration) (configuration : Configuration) (env : Env)
    (newJob : Payload → Except String job) (payload : Payload) (fuel : Nat) :
    Option (Option Result × Option String) :=
  match newJob payload with
  | Except.error err => some (none, some err)
  | Except.ok j =>
    let r := fire NeverExpires configuration env j [some forward] fuel
    if r.returned then
      (awaitResult env (offered r.trace) fuel 0).map (fun p => (some p.1, p.2))
    else none

/-! ## The worker -/

/-- Type `Status` of `worker.go`. -/
abbrev Status := Int

/-- Type `Signal` of `worker.go`. -/
abbrev Signal := Int

/-- Constant `Alive`. -/
def Alive : Status := 1

/-- Constant `Zombie`. -/
def Zombie : Status := 2

/-- Constant `KillSignal`. -/
def KillSignal : Signal := 9

/-- Modelled from the spec: the `Processor` interface is declared outside the
two source files; its three operations act on the processor's own state `π`. -/
structure Processor (π : Type) where
  Initialize : π → Option String × π
  Process : π → Payload → Result × π
  Destroy : π → π

/-- The fields of `worker` that are plain data. The channels `jobs`, `signals`
and `done` belong to the environment: what is received comes with the
`select` outcome, what is sent goes to the trace. -/
structure worker (π : Type) where
  uuid : String
  heartbeat : Duration
  status : Status
  processor : π

/-- Effects of a worker. -/
inductive WorkerEvent where
  /-- Call of `processor.Initialize()`. -/
  | init : WorkerEvent
  /-- Receive of a signal from `w.signals`. -/
  | signal (s : Signal) : WorkerEvent
  /-- Call of `processor.Process(payload)`. -/
  | process (payload : Payload) : WorkerEvent
  /-- Send `job.output <- o` on result slot `slot`. -/
  | push (slot : Nat) (o : output) : WorkerEvent
  /-- Timer `time.After(d)` fired in the `select` of `run`. -/
  | heartbeat (d : Duration) : WorkerEvent
  /-- Send `w.signals <- s`. -/
  | sendSignal (s : Signal) : WorkerEvent
  /-- Receive `<-w.done`. -/
  | awaitDone : WorkerEvent
  /-- Pause `<-time.After(time.Second)`. -/
  | sleep (d : Duration) : WorkerEvent
  /-- Send `w.done <- v`. -/
  | done (v : Bool) : WorkerEvent
  /-- Call `close(w.done)`. -/
  | closeDone : WorkerEvent
  /-- Call of `processor.Destroy()`. -/
  | destroy : WorkerEvent
  deriving DecidableEq, Repr

/-- One second, in nanoseconds. -/
def Second : Duration := 1000000000

/-- Function `newWorker`, after the logger was built: the worker as constructed. -/
def newWorker {π : Type} (uuid : String) (heartbeat : Duration) (factory : π) : worker π :=
  { uuid := uuid, heartbeat := heartbeat, status := Alive, processor := factory }

/-- Function `isAlive`. -/
def isAlive {π : Type} (w : worker π) : Bool :=
  w.status = Alive

/-- Function `kill`. -/
def kill {π : Type} (w : worker π) : worker π × List WorkerEvent :=
  (w, [WorkerEvent.sendSignal KillSignal])

/-- Function `wait`; `v` is the value the environment delivers on `done`. -/
def wait {π : Type} (w : worker π) (v : Bool) : Bool × worker π × List WorkerEvent :=
  (v, w, [WorkerEvent.awaitDone])

/-- Function `die`. The deferred `Destroy` runs last. -/
def die {π : Type} (P : Processor π) (w : worker π) : worker π × List WorkerEvent :=
  if isAlive w then
    ({ w with status := Zombie, processor := P.Destroy w.processor },
      [WorkerEvent.sleep Second, WorkerEvent.done true, WorkerEvent.closeDone,
       WorkerEvent.destroy])
  else (w, [])

/-- What one `select` of `run` delivers. -/
inductive Select where
  /-- A value `signal := <-w.signals`. -/
  | signal (s : Signal) : Select
  /-- A job from `w.jobs`, with `more = true`. -/
  | job (j : job) : Select
  /-- The receive from `w.jobs` with `more = false`: the queue is closed. -/
  | closed : Select
  /-- The heartbeat timer. -/
  | heartbeat : Select
  deriving DecidableEq, Repr

/-- State after one pass through the loop body of `run`. -/
structure Pass (π : Type) where
  w : worker π
  counter : Nat
  trace : List WorkerEvent
  exit : Bool

/-- One pass through the body of `runLoop` in `run`. `exit` is `break runLoop`. -/
def step {π : Type} (P : Processor π) (w : worker π) (counter : Nat) : Select → Pass π
  | Select.signal s =>
    if s = KillSignal then
      { w := w, counter := counter, trace := [WorkerEvent.signal s], exit := true }
    else
      { w := w, counter := counter, trace := [WorkerEvent.signal s], exit := false }
  | Select.job j =>
    let counter1 := counter + 1
    let result := P.Process w.processor j.payload
    { w := { w with processor := result.2 }
      counter := counter1 + 1
      trace := [WorkerEvent.process j.payload,
                WorkerEvent.push j.output (newOutput j.correlationId result.1)]
      exit := false }
  | Select.closed =>
    { w := w, counter := counter, trace := [], exit := true }
  | Select.heartbeat =>
    { w := w, counter := counter, trace := [WorkerEvent.heartbeat w.heartbeat], exit := false }

/-- The loop `runLoop` of `run` over the `select` outcomes it is given. `exit`
is false when the outcomes ran out with the loop still going. -/
def runLoop {π : Type} (P : Processor π) : List Select → worker π → Nat → Pass π
  | [], w, counter =>
    { w := w, counter := counter, trace := [], exit := !isAlive w }
  | ev :: rest, w, counter =>
    if isAlive w then
      let p := step P w counter ev
      if p.exit then p
      else
        let q := runLoop P rest p.w p.counter
        { w := q.w, counter := q.counter, trace := p.trace ++ q.trace, exit := q.exit }
    else
      { w := w, counter := counter, trace := [], exit := true }

/-- Function `run`: initialize, loop, and the deferred `die` once the loop is left. -/
def run {π : Type} (P : Processor π) (w : worker π) (evs : List Select) : Pass π :=
  let init := P.Initialize w.processor
  let p := runLoop P evs { w with processor := init.2 } 0
  if p.exit then
    let d := die P p.w
    { w := d.1, counter := p.counter
      trace := WorkerEvent.init :: (p.trace ++ d.2), exit := true }
  else
    { w := p.w, counter := p.counter, trace := WorkerEvent.init :: p.trace, exit := false }

/-- A number of `die` calls in a row, with everything they did. -/
def dieTimes {π : Type} (P : Processor π) : Nat → worker π → worker π × List WorkerEvent
  | 0, w => (w, [])
  | n + 1, w =>
    let d := die P w
    let r := dieTimes P n d.1
    (r.1, d.2 ++ r.2)

/-! ## What the spec says, in its own words -/

/-- The supplied callbacks filtered to the non-nil entries, each with its
position and the value it is to be called with. -/
def suppliedNonNil (result : Result) (callbacks : List (Option Callback)) :
    List (Nat × Nat × Result) :=
  callbacks.enum.filterMap (fun p => p.2.map (fun cb => (p.1, cb.tag, result)))

/-- The positions of the nil entries. -/
def suppliedNil (callbacks : List (Option Callback)) : List Nat :=
  callbacks.enum.filterMap (fun p => match p.2 with | none => some p.1 | some _ => none)

/-- The poll interval in the words of the spec: the smaller of the heartbeat
and the remaining expiry. -/
def specPollInterval (heartbeat expiresAfter elapsed : Duration) : Duration :=
  Min.min heartbeat (expiresAfter - elapsed)

/-- The nil entries skipped, in order. -/
def skips : List Event → List Nat
  | [] => []
  | Event.skip index :: rest => index :: skips rest
  | _ :: rest => skips rest

/-- The positions at which a callback panicked. -/
def panics : List Event → List Nat
  | [] => []
  | Event.panic index :: rest => index :: panics rest
  | _ :: rest => panics rest

/-! ## Auxiliary notions for `fire` -/

/-- The result `fire` writes on its expiry path. -/
def expiredWrite (j : job) : Nat × output :=
  (j.output, newOutput j.correlationId Result.Expired)

/-- The clock of a job as `fire` sees it: it starts at a non-negative reading
and a poll that times out lets at least its timeout pass. -/
def ClockAdvances (NE : Duration) (conf : Configuration) (env : Env) (j : job) : Prop :=
  0 ≤ env.since 0 ∧
    ∀ k, env.attempt k = SendOutcome.timedOut →
      env.since k + min NE conf.Heartbeat j.expiresAfter ≤ env.since (k + 1)

/-! ## Observations on a worker trace -/

/-- The values sent on `done`, in order. -/
def doneSends : List WorkerEvent → List Bool
  | [] => []
  | WorkerEvent.done v :: rest => v :: doneSends rest
  | _ :: rest => doneSends rest

/-- The number of calls of the processor's `Destroy`. -/
def destroyCalls : List WorkerEvent → Nat
  | [] => 0
  | WorkerEvent.destroy :: rest => destroyCalls rest + 1
  | _ :: rest => destroyCalls rest

/-! ## `Destroy` as a transition system -/

/-- Where the task started by `Destroy` for one worker stands. -/
inductive HelperPc where
  /-- Not started yet. -/
  | idle : HelperPc
  /-- Started, about to call `worker.kill()`. -/
  | started : HelperPc
  /-- Back from `worker.kill()`, about to call `worker.wait()`. -/
  | killed : HelperPc
  /-- Back from `worker.wait()`, about to send the uuid. -/
  | waited : HelperPc
  /-- The uuid is sent; the task is over. -/
  | reported : HelperPc
  deriving DecidableEq, Repr

/-- Where `Destroy` itself stands: in the `range` loop that starts the tasks,
in the loop that collects the uuids, or returned. -/
inductive MainPc where
  | spawning : MainPc
  | collecting : MainPc
  | returned : MainPc
  deriving DecidableEq, Repr

/-- What `Destroy` and its tasks do. -/
inductive DestroyEvent where
  /-- A task `go func(worker *worker)` is started for the worker. -/
  | spawn (uuid : String) : DestroyEvent
  /-- The call `worker.kill()` sent `KillSignal` to the worker. -/
  | kill (uuid : String) : DestroyEvent
  /-- The call `worker.wait()` returned: the worker reported done. -/
  | awaited (uuid : String) : DestroyEvent
  /-- The send `unregisteredWorkers <- worker.uuid` went through. -/
  | report (uuid : String) : DestroyEvent
  /-- The call `delete(e.workers, uuid)`. -/
  | delete (uuid : String) : DestroyEvent
  /-- The call `close(e.jobs)`. -/
  | closeJobs : DestroyEvent
  deriving DecidableEq, Repr

/-- The channels and the status of one worker, as `Destroy` meets them. -/
structure WorkerChans where
  status : Status
  signals : List Signal
  done : List Bool
  doneClosed : Bool
  deriving DecidableEq, Repr

/-- The state `Destroy` works on.
* `workers` holds the keys of the map `e.workers`;
* `todo` holds the workers the `range` loop has still to visit;
* `i` is the counter of the collecting loop;
* `unregisteredWorkers` is the buffer of the channel of that name, of capacity
  `workersCount`;
* `helper` and `chans` give, per uuid, the task started for that worker and
  the worker's own channels. -/
structure DestroyState where
  workers : List String
  jobsClosed : Bool
  main : MainPc
  todo : List String
  workersCount : Nat
  i : Nat
  unregisteredWorkers : List String
  helper : String → HelperPc
  chans : String → WorkerChans
  trace : List DestroyEvent

/-- Who moves next. -/
inductive Action where
  /-- The task running `Destroy`. -/
  | main : Action
  /-- The task `Destroy` started for the worker. -/
  | helper (uuid : String) : Action
  /-- The worker's own loop takes a signal from `w.signals`. -/
  | workerSignal (uuid : String) : Action
  /-- The worker's own loop finds the job queue closed. -/
  | workerClosed (uuid : String) : Action
  deriving DecidableEq, Repr

/-- The state `Destroy` starts from: an executor as `New` leaves it, with the
workers `ws` registered, all Alive, their channels empty, the queue open. -/
def initial (ws : List String) : DestroyState :=
  { workers := ws
    jobsClosed := false
    main := MainPc.spawning
    todo := ws
    workersCount := ws.length
    i := 0
    unregisteredWorkers := []
    helper := fun _ => HelperPc.idle
    chans := fun _ => { status := Alive, signals := [], done := [], doneClosed := false }
    trace := [] }

/-- The next step of `Destroy` itself; `none` when it is blocked, when it has
returned, or when `close` would hit a closed channel. -/
def mainStep (s : DestroyState) : Option DestroyState :=
  match s.main with
  | MainPc.spawning =>
    match s.todo with
    | u :: rest =>
      some { s with
        todo := rest
        helper := Function.update s.helper u HelperPc.started
        trace := s.trace ++ [DestroyEvent.spawn u] }
    | [] => some { s with main := MainPc.collecting, i := 0 }
  | MainPc.collecting =>
    if s.i < s.workersCount then
      match s.unregisteredWorkers with
      | u :: rest =>
        some { s with
          unregisteredWorkers := rest
          workers := s.workers.filter (fun x => x ≠ u)
          i := s.i + 1
          trace := s.trace ++ [DestroyEvent.delete u] }
      | [] => none
    else if s.jobsClosed then none
    else
      some { s with
        jobsClosed := true
        main := MainPc.returned
        trace := s.trace ++ [DestroyEvent.closeJobs] }
  | MainPc.returned => none

/-- The next step of the task started for worker `u`: `kill`, then `wait`,
then the send of the uuid; `none` when it is blocked or over. -/
def helperStep (s : DestroyState) (u : String) : Option DestroyState :=
  match s.helper u with
  | HelperPc.idle => none
  | HelperPc.started =>
    if (s.chans u).signals.length < 1 then
      some { s with
        chans := Function.update s.chans u
          { s.chans u with signals := (s.chans u).signals ++ [KillSignal] }
        helper := Function.update s.helper u HelperPc.killed
        trace := s.trace ++ [DestroyEvent.kill u] }
    else none
  | HelperPc.killed =>
    match (s.chans u).done with
    | _ :: rest =>
      some { s with
        chans := Function.update s.chans u { s.chans u with done := rest }
        helper := Function.update s.helper u HelperPc.waited
        trace := s.trace ++ [DestroyEvent.awaited u] }
    | [] =>
      if (s.chans u).doneClosed then
        some { s with
          helper := Function.update s.helper u HelperPc.waited
          trace := s.trace ++ [DestroyEvent.awaited u] }
      else none
  | HelperPc.waited =>
    if s.unregisteredWorkers.length < s.workersCount then
      some { s with
        unregisteredWorkers := s.unregisteredWorkers ++ [u]
        helper := Function.update s.helper u HelperPc.reported
        trace := s.trace ++ [DestroyEvent.report u] }
    else none
  | HelperPc.reported => none

/-- What `die` does to the channels of a worker. -/
def diedChans (c : WorkerChans) : WorkerChans :=
  if c.status = Alive then
    { c with status := Zombie, done := c.done ++ [true], doneClosed := true }
  else c

/-- The loop of worker `u` takes a signal: a kill signal leaves the loop and
`die` runs, any other signal is dropped. -/
def workerSignalStep (s : DestroyState) (u : String) : Option DestroyState :=
  if (s.chans u).status = Alive then
    match (s.chans u).signals with
    | sig :: rest =>
      if sig = KillSignal then
        some { s with
          chans := Function.update s.chans u (diedChans { s.chans u with signals := rest }) }
      else
        some { s with chans := Function.update s.chans u { s.chans u with signals := rest } }
    | [] => none
  else none

/-- The loop of worker `u` finds the job queue closed, leaves and `die` runs. -/
def workerClosedStep (s : DestroyState) (u : String) : Option DestroyState :=
  if (s.chans u).status = Alive ∧ s.jobsClosed = true then
    some { s with chans := Function.update s.chans u (diedChans (s.chans u)) }
  else none

/-- One step of the system. -/
def next (s : DestroyState) : Action → Option DestroyState
  | Action.main => mainStep s
  | Action.helper u => helperStep s u
  | Action.workerSignal u => workerSignalStep s u
  | Action.workerClosed u => workerClosedStep s u

/-- A schedule: the actions are tried in order, one that is blocked is passed over. -/
def runSchedule (s : DestroyState) (acts : List Action) : DestroyState :=
  acts.foldl (fun st a => (next st a).getD st) s

/-- Function `Destroy` on an executor with the workers `ws` registered, under
the schedule `acts`: the state it leaves. -/
def Destroy (ws : List String) (acts : List Action) : DestroyState :=
  runSchedule (initial ws) acts

/-- The workers sent a kill signal, in order. -/
def killsOf (t : List DestroyEvent) : List String :=
  t.filterMap (fun e => match e with | DestroyEvent.kill u => some u | _ => none)

/-- The workers that reported done, in order. -/
def awaitedOf (t : List DestroyEvent) : List String :=
  t.filterMap (fun e => match e with | DestroyEvent.awaited u => some u | _ => none)

/-- The uuids sent on `unregisteredWorkers`, in order. -/
def reportsOf (t : List DestroyEvent) : List String :=
  t.filterMap (fun e => match e with | DestroyEvent.report u => some u | _ => none)

/-- The uuids deleted from the map, in order. -/
def deletesOf (t : List DestroyEvent) : List String :=
  t.filterMap (fun e => match e with | DestroyEvent.delete u => some u | _ => none)

/-- What holds of every state `Destroy` can reach from `initial ws`. -/
structure Inv (ws : List String) (s : DestroyState) : Prop where
  count_eq : s.workersCount = ws.length
  spawned : ∃ sp, ws = sp ++ s.todo ∧ ∀ u, s.helper u ≠ HelperPc.idle ↔ u ∈ sp
  todo_nil : s.main ≠ MainPc.spawning → s.todo = []
  kills : ∀ u, (killsOf s.trace).count u =
    if s.helper u = HelperPc.killed ∨ s.helper u = HelperPc.waited ∨
      s.helper u = HelperPc.reported then 1 else 0
  awaits : ∀ u, (awaitedOf s.trace).count u =
    if s.helper u = HelperPc.waited ∨ s.helper u = HelperPc.reported then 1 else 0
  reports : ∀ u, (reportsOf s.trace).count u =
    if s.helper u = HelperPc.reported then 1 else 0
  queue : reportsOf s.trace = deletesOf s.trace ++ s.unregisteredWorkers
  no_delete : s.main = MainPc.spawning → deletesOf s.trace = []
  idx : s.main ≠ MainPc.spawning → s.i = (deletesOf s.trace).length
  map : ∀ u, u ∈ s.workers ↔ u ∈ ws ∧ u ∉ deletesOf s.trace
  not_closed : s.main ≠ MainPc.returned → DestroyEvent.closeJobs ∉ s.trace
  closed : s.main = MainPc.returned →
    s.jobsClosed = true ∧ ws.length ≤ s.i ∧
      ∃ before, s.trace = before ++ [DestroyEvent.closeJobs] ∧
        DestroyEvent.closeJobs ∉ before

/-- What holds of the workers' channels in every state `Destroy` can reach: a
value on `done`, or `done` closed, means the worker is a Zombie, and a task
that is back from `wait` has a Zombie worker. -/
def ChansInv (s : DestroyState) : Prop :=
  ∀ u, (((s.chans u).done ≠ [] ∨ (s.chans u).doneClosed = true) →
      (s.chans u).status = Zombie) ∧
    ((s.helper u = HelperPc.waited ∨ s.helper u = HelperPc.reported) →
      (s.chans u).status = Zombie)

/-! ## Lemmas on `runCallbacks` and `processResult` -/

theorem sendTimers_runCallbacks (result : Result) (cbs : List (Option Callback)) (i : Nat) :
    sendTimers (runCallbacks result i cbs) = [] := by
  induction cbs generalizing i with
  | nil => rfl
  | cons c rest ih =>
    cases c with
    | none => simpa [runCallbacks, sendTimers] using ih (i + 1)
    | some cb =>
      cases h : cb.body result <;> simp [runCallbacks, sendTimers, h, ih]

theorem enqueued_runCallbacks (result : Result) (cbs : List (Option Callback)) (i : Nat) :
    enqueued (runCallbacks result i cbs) = [] := by
  induction cbs generalizing i with
  | nil => rfl
  | cons c rest ih =>
    cases c with
    | none => simpa [runCallbacks, enqueued] using ih (i + 1)
    | some cb =>
      cases h : cb.body result <;> simp [runCallbacks, enqueued, h, ih]

theorem written_runCallbacks (result : Result) (cbs : List (Option Callback)) (i : Nat) :
    written (runCallbacks result i cbs) = [] := by
  induction cbs generalizing i with
  | nil => rfl
  | cons c rest ih =>
    cases c with
    | none => simpa [runCallbacks, written] using ih (i + 1)
    | some cb =>
      cases h : cb.body result <;> simp [runCallbacks, written, h, ih]

theorem expiries_runCallbacks (result : Result) (cbs : List (Option Callback)) (i : Nat) :
    expiries (runCallbacks result i cbs) = [] := by
  induction cbs generalizing i with
  | nil => rfl
  | cons c rest ih =>
    cases c with
    | none => simpa [runCallbacks, expiries] using ih (i + 1)
    | some cb =>
      cases h : cb.body result <;> simp [runCallbacks, expiries, h, ih]

theorem sendTimers_processResult (conf : Configuration) (env : Env) (j : job)
    (cbs : List (Option Callback)) (fuel k : Nat) :
    sendTimers (processResult conf env j cbs fuel k).trace = [] := by
  induction fuel generalizing k with
  | zero => rfl
  | succ n ih =>
    cases h : env.recv k <;>
      simp [processResult, h, sendTimers, ih, sendTimers_runCallbacks]

theorem enqueued_processResult (conf : Configuration) (env : Env) (j : job)
    (cbs : List (Option Callback)) (fuel k : Nat) :
    enqueued (processResult conf env j cbs fuel k).trace = [] := by
  induction fuel generalizing k with
  | zero => rfl
  | succ n ih =>
    cases h : env.recv k <;>
      simp [processResult, h, enqueued, ih, enqueued_runCallbacks]

theorem written_processResult (conf : Configuration) (env : Env) (j : job)
    (cbs : List (Option Callback)) (fuel k : Nat) :
    written (processResult conf env j cbs fuel k).trace = [] := by
  induction fuel generalizing k with
  | zero => rfl
  | succ n ih =>
    cases h : env.recv k <;>
      simp [processResult, h, written, ih, written_runCallbacks]

theorem expiries_processResult (conf : Configuration) (env : Env) (j : job)
    (cbs : List (Option Callback)) (fuel k : Nat) :
    expiries (processResult conf env j cbs fuel k).trace = [] := by
  induction fuel generalizing k with
  | zero => rfl
  | succ n ih =>
    cases h : env.recv k <;>
      simp [processResult, h, expiries, ih, expiries_runCallbacks]

theorem phase_processResult (conf : Configuration) (env : Env) (j : job)
    (cbs : List (Option Callback)) (fuel k : Nat) :
    (processResult conf env j cbs fuel k).phase = Phase.waiting ∨
      (processResult conf env j cbs fuel k).phase = Phase.dispatched := by
  induction fuel generalizing k with
  | zero => exact Or.inl rfl
  | succ n ih =>
    cases h : env.recv k with
    | none => simpa [processResult, h] using ih (k + 1)
    | some r => simp [processResult, h]

/-! ## `min` (C10) -/

theorem sendTimers_fireLoop (NE : Duration) (conf : Configuration) (env : Env) (j : job)
    (cbs : List (Option Callback)) (waitFuel fuel k : Nat) :
    ∀ d ∈ sendTimers (fireLoop NE conf env j cbs waitFuel fuel k).trace,
      d = min NE conf.Heartbeat j.expiresAfter := by
  induction fuel generalizing k with
  | zero => intro d hd; simp [fireLoop, sendTimers] at hd
  | succ n ih =>
    intro d hd
    unfold fireLoop at hd
    split at hd
    · cases h : env.attempt k with
      | sent =>
        simp [h, sendTimers, sendTimers_processResult] at hd
        exact hd
      | timedOut =>
        simp [h, sendTimers] at hd
        rcases hd with hd | hd
        · exact hd
        · exact ih (k + 1) d hd
    · simp [sendTimers] at hd

/-- C10: `min` returns the second argument when the first is `NeverExpires`,
the first when only the second is, and otherwise the numerically smaller one;
so it is commutative, always returns one of its arguments, returns
`NeverExpires` only when both arguments are `NeverExpires`, and every poll of
`fire` for a never-expiring job is armed with exactly the heartbeat. -/
theorem min_excludes_NeverExpires (NE a b : Duration) (conf : Configuration) (env : Env)
    (j : job) (cbs : List (Option Callback)) (fuel : Nat) :
    (a = NE → min NE a b = b) ∧
    (a ≠ NE → b = NE → min NE a b = a) ∧
    (a ≠ NE → b ≠ NE → min NE a b = Min.min a b) ∧
    min NE a b = min NE b a ∧
    (min NE a b = a ∨ min NE a b = b) ∧
    (min NE a b = NE → a = NE ∧ b = NE) ∧
    (j.expiresAfter = NE →
      ∀ d ∈ sendTimers (fire NE conf env j cbs fuel).trace, d = conf.Heartbeat) := by
  refine ⟨?_, ?_, ?_, ?_, ?_, ?_, ?_⟩
  · intro h; simp [min, h]
  · intro h1 h2; simp [min, h1, h2]
  · intro h1 h2
    simp only [min, h1, h2, if_false]
    split
    · rename_i h; exact (min_eq_left (le_of_lt h)).symm
    · rename_i h; exact (min_eq_right (not_lt.mp h)).symm
  · unfold min
    by_cases h1 : a = NE <;> by_cases h2 : b = NE <;> simp [h1, h2]
    rcases lt_trichotomy a b with h | h | h
    · simp [h, not_lt.mpr (le_of_lt h)]
    · simp [h]
    · simp [h, not_lt.mpr (le_of_lt h)]
  · unfold min
    by_cases h1 : a = NE <;> by_cases h2 : b = NE <;> simp [h1, h2]
    by_cases h : a < b <;> simp [h]
  · unfold min
    by_cases h1 : a = NE <;> by_cases h2 : b = NE <;> simp [h1, h2]
    by_cases h : a < b <;> simp [h, h1, h2]
  · intro hne d hd
    have h := sendTimers_fireLoop NE conf env j cbs fuel fuel 0 d hd
    rw [h, hne]
    unfold min
    by_cases h1 : conf.Heartbeat = NE <;> simp [h1]

/-- Witness of C10 with sentinel `0`: the sentinel is passed over on either
side, otherwise the smaller argument is returned. -/
theorem min_excludes_NeverExpires_witness :
    min 0 0 50 = 50 ∧ min 0 50 0 = 50 ∧ min 0 30 100 = Min.min 30 100 ∧
      min 0 100 30 = min 0 30 100 := by
  have h := min_excludes_NeverExpires 0 30 100 ⟨1, 30⟩
    ⟨fun _ => 0, fun _ => SendOutcome.timedOut, fun _ => none, fun _ => true⟩
    ⟨"job-1", 7, 0, 3⟩ [] 1
  have h0 := min_excludes_NeverExpires 0 0 50 ⟨1, 30⟩
    ⟨fun _ => 0, fun _ => SendOutcome.timedOut, fun _ => none, fun _ => true⟩
    ⟨"job-1", 7, 0, 3⟩ [] 1
  have h1 := min_excludes_NeverExpires 0 50 0 ⟨1, 30⟩
    ⟨fun _ => 0, fun _ => SendOutcome.timedOut, fun _ => none, fun _ => true⟩
    ⟨"job-1", 7, 0, 3⟩ [] 1
  exact ⟨h0.1 rfl, h1.2.1 (by decide) rfl, h.2.2.1 (by decide) (by decide), h.2.2.2.1.symm⟩

/-! ## The callback task (C5, C6) -/

theorem calls_append (a b : List Event) : calls (a ++ b) = calls a ++ calls b := by
  induction a with
  | nil => rfl
  | cons e rest ih => cases e <;> simp [calls, ih]

theorem skips_append (a b : List Event) : skips (a ++ b) = skips a ++ skips b := by
  induction a with
  | nil => rfl
  | cons e rest ih => cases e <;> simp [skips, ih]

theorem panics_append (a b : List Event) : panics (a ++ b) = panics a ++ panics b := by
  induction a with
  | nil => rfl
  | cons e rest ih => cases e <;> simp [panics, ih]

theorem calls_replicate_recvTimer (d : Duration) (m : Nat) :
    calls (List.replicate m (Event.recvTimer d)) = [] := by
  induction m with
  | zero => rfl
  | succ n ih => simp [List.replicate_succ, calls, ih]

theorem skips_replicate_recvTimer (d : Duration) (m : Nat) :
    skips (List.replicate m (Event.recvTimer d)) = [] := by
  induction m with
  | zero => rfl
  | succ n ih => simp [List.replicate_succ, skips, ih]

theorem panics_replicate_recvTimer (d : Duration) (m : Nat) :
    panics (List.replicate m (Event.recvTimer d)) = [] := by
  induction m with
  | zero => rfl
  | succ n ih => simp [List.replicate_succ, panics, ih]

/-- When every callback returns, the task calls the non-nil entries from
position `i` on, in order, skips the nil ones and never panics. -/
theorem runCallbacks_of_returning (result : Result) (cbs : List (Option Callback)) (i : Nat)
    (hret : ∀ cb, some cb ∈ cbs → cb.body result = CallOutcome.returned) :
    calls (runCallbacks result i cbs) =
        (cbs.enumFrom i).filterMap (fun p => p.2.map (fun cb => (p.1, cb.tag, result))) ∧
      skips (runCallbacks result i cbs) =
        (cbs.enumFrom i).filterMap
          (fun p => match p.2 with | none => some p.1 | some _ => none) ∧
      panics (runCallbacks result i cbs) = [] := by
  induction cbs generalizing i with
  | nil => simp [runCallbacks, calls, skips, panics]
  | cons c rest ih =>
    have hrest : ∀ cb, some cb ∈ rest → cb.body result = CallOutcome.returned :=
      fun cb hcb => hret cb (List.mem_cons_of_mem _ hcb)
    obtain ⟨h1, h2, h3⟩ := ih (i + 1) hrest
    cases c with
    | none =>
      simp [runCallbacks, calls, skips, panics, List.enumFrom, h1, h2, h3]
    | some cb =>
      have hcb : cb.body result = CallOutcome.returned := hret cb (List.mem_cons_self _ _)
      simp [runCallbacks, calls, skips, panics, List.enumFrom, hcb, h1, h2, h3]

theorem tags_suppliedFrom (result : Result) (cbs : List (Option Callback)) (i : Nat) :
    ((cbs.enumFrom i).filterMap
        (fun p => p.2.map (fun cb => (p.1, cb.tag, result)))).map (fun c => c.2.1) =
      (cbs.filterMap id).map (fun cb => cb.tag) := by
  induction cbs generalizing i with
  | nil => rfl
  | cons c rest ih =>
    cases c with
    | none => simpa [List.enumFrom] using ih (i + 1)
    | some cb => simpa [List.enumFrom] using ih (i + 1)

/-- The wait of `processResult`: `m` heartbeats pass, then the output arrives. -/
theorem processResult_arrives (conf : Configuration) (env : Env) (j : job)
    (cbs : List (Option Callback)) (result : output) (m : Nat) :
    ∀ (fuel k : Nat), (∀ i, k ≤ i → i < k + m → env.recv i = none) →
      env.recv (k + m) = some result → m < fuel →
      processResult conf env j cbs fuel k =
        { trace := List.replicate m (Event.recvTimer conf.Heartbeat) ++
            (Event.receive j.output result :: Event.spawn ::
              runCallbacks result.result 0 cbs)
          phase := Phase.dispatched } := by
  induction m with
  | zero =>
    intro fuel k _ harr hfuel
    obtain ⟨n, rfl⟩ : ∃ n, fuel = n + 1 := ⟨fuel - 1, by omega⟩
    simp only [Nat.add_zero] at harr
    simp [processResult, harr]
  | succ m ih =>
    intro fuel k hnone harr hfuel
    obtain ⟨n, rfl⟩ : ∃ n, fuel = n + 1 := ⟨fuel - 1, by omega⟩
    have hk : env.recv k = none := hnone k (le_refl k) (by omega)
    have hstep := ih n (k + 1) (fun i h1 h2 => hnone i (by omega) (by omega))
      (by rw [← harr]; congr 1; omega) (by omega)
    simp [processResult, hk, hstep, List.replicate_succ]

/-- Counterexample to C5: of the callbacks `[nil, c1, nil, c2]`, `c1` panics
when called. The task skips the first nil entry, calls `c1` and unwinds: the
calls are not the supplied list filtered to its non-nil entries, `c2` is
never called and the second nil entry is never reached. -/
theorem calls_cut_short_by_panic :
    calls (processResult ⟨1, 50⟩ ⟨fun _ => 0, fun _ => SendOutcome.sent,
        fun _ => some ⟨"job-1", Result.value 7⟩, fun _ => true⟩ ⟨"job-1", 7, 0, 3⟩
        [none, some ⟨1, fun _ => CallOutcome.panicked⟩, none,
          some ⟨2, fun _ => CallOutcome.returned⟩] 1 0).trace = [(1, 1, Result.value 7)] ∧
    suppliedNonNil (Result.value 7)
        [none, some ⟨1, fun _ => CallOutcome.panicked⟩, none,
          some ⟨2, fun _ => CallOutcome.returned⟩] =
      [(1, 1, Result.value 7), (3, 2, Result.value 7)] ∧
    calls (processResult ⟨1, 50⟩ ⟨fun _ => 0, fun _ => SendOutcome.sent,
        fun _ => some ⟨"job-1", Result.value 7⟩, fun _ => true⟩ ⟨"job-1", 7, 0, 3⟩
        [none, some ⟨1, fun _ => CallOutcome.panicked⟩, none,
          some ⟨2, fun _ => CallOutcome.returned⟩] 1 0).trace ≠
      suppliedNonNil (Result.value 7)
        [none, some ⟨1, fun _ => CallOutcome.panicked⟩, none,
          some ⟨2, fun _ => CallOutcome.returned⟩] ∧
    skips (processResult ⟨1, 50⟩ ⟨fun _ => 0, fun _ => SendOutcome.sent,
        fun _ => some ⟨"job-1", Result.value 7⟩, fun _ => true⟩ ⟨"job-1", 7, 0, 3⟩
        [none, some ⟨1, fun _ => CallOutcome.panicked⟩, none,
          some ⟨2, fun _ => CallOutcome.returned⟩] 1 0).trace = [0] := by
  decide

/-- C5, amended: for every result and every list of callbacks (some possibly
nil) whose non-nil entries all return when called with the value of that
result, once the output of the job arrives the task started by
`processResult` calls every non-nil callback exactly once with that value, in
the order supplied; the calls are the supplied list filtered to its non-nil
entries, every nil entry is skipped and nothing fails. -/
theorem processResult_calls_non_nil_in_order (conf : Configuration) (env : Env) (j : job)
    (cbs : List (Option Callback)) (result : output) (k fuel : Nat)
    (hbefore : ∀ i, i < k → env.recv i = none)
    (harrive : env.recv k = some result)
    (hfuel : k < fuel)
    (hret : ∀ cb, some cb ∈ cbs → cb.body result.result = CallOutcome.returned) :
    (processResult conf env j cbs fuel 0).phase = Phase.dispatched ∧
    calls (processResult conf env j cbs fuel 0).trace = suppliedNonNil result.result cbs ∧
    (calls (processResult conf env j cbs fuel 0).trace).map (fun c => c.2.1) =
      (cbs.filterMap id).map (fun cb => cb.tag) ∧
    skips (processResult conf env j cbs fuel 0).trace = suppliedNil cbs ∧
    panics (processResult conf env j cbs fuel 0).trace = [] := by
  have hrun := processResult_arrives conf env j cbs result k fuel 0
    (fun i _ h2 => hbefore i (by omega)) (by simpa using harrive) hfuel
  obtain ⟨h1, h2, h3⟩ := runCallbacks_of_returning result.result cbs 0 hret
  have hcalls : calls (processResult conf env j cbs fuel 0).trace =
      suppliedNonNil result.result cbs := by
    rw [hrun]
    simp [calls_append, calls_replicate_recvTimer, calls, h1, suppliedNonNil, List.enum]
  refine ⟨by rw [hrun], hcalls, ?_, ?_, ?_⟩
  · rw [hcalls]
    exact tags_suppliedFrom result.result cbs 0
  · rw [hrun]
    simp [skips_append, skips_replicate_recvTimer, skips, h2, suppliedNil, List.enum]
  · rw [hrun]
    simp [panics_append, panics_replicate_recvTimer, panics, h3]

/-- Witness of C5: three slots, the middle one nil, the output arriving at the
second `select`. -/
theorem processResult_calls_non_nil_in_order_witness :
    (processResult ⟨1, 50⟩ ⟨fun _ => 0, fun _ => SendOutcome.sent,
        fun i => if i = 1 then some ⟨"job-1", Result.value 7⟩ else none, fun _ => true⟩
        ⟨"job-1", 7, 0, 3⟩
        [some ⟨1, fun _ => CallOutcome.returned⟩, none, some ⟨2, fun _ => CallOutcome.returned⟩]
        2 0).phase = Phase.dispatched ∧
    calls (processResult ⟨1, 50⟩ ⟨fun _ => 0, fun _ => SendOutcome.sent,
        fun i => if i = 1 then some ⟨"job-1", Result.value 7⟩ else none, fun _ => true⟩
        ⟨"job-1", 7, 0, 3⟩
        [some ⟨1, fun _ => CallOutcome.returned⟩, none, some ⟨2, fun _ => CallOutcome.returned⟩]
        2 0).trace = [(0, 1, Result.value 7), (2, 2, Result.value 7)] := by
  have h := processResult_calls_non_nil_in_order ⟨1, 50⟩ ⟨fun _ => 0, fun _ => SendOutcome.sent,
        fun i => if i = 1 then some ⟨"job-1", Result.value 7⟩ else none, fun _ => true⟩
        ⟨"job-1", 7, 0, 3⟩
        [some ⟨1, fun _ => CallOutcome.returned⟩, none, some ⟨2, fun _ => CallOutcome.returned⟩]
        ⟨"job-1", Result.value 7⟩ 1 2
        (by intro i hi; have : i = 0 := by omega
            subst this; rfl)
        rfl (by decide)
        (by intro cb hcb
            simp only [List.mem_cons, Option.some.injEq, List.mem_singleton, reduceCtorEq,
              false_or, List.not_mem_nil, or_false] at hcb
            rcases hcb with h | h <;> subst h <;> rfl)
  exact ⟨h.1, h.2.1.trans rfl⟩

/-- The task up to a panic: the callbacks of `pre` return, the next one panics. -/
theorem runCallbacks_until_panic (result : Result) (pre post : List (Option Callback))
    (cb : Callback) (i : Nat)
    (hpre : ∀ c, some c ∈ pre → c.body result = CallOutcome.returned)
    (hcb : cb.body result = CallOutcome.panicked) :
    runCallbacks result i (pre ++ some cb :: post) =
      runCallbacks result i pre ++
        [Event.call (i + pre.length) cb.tag result, Event.panic (i + pre.length)] := by
  induction pre generalizing i with
  | nil => simp [runCallbacks, hcb]
  | cons c rest ih =>
    have hrest : ∀ c, some c ∈ rest → c.body result = CallOutcome.returned :=
      fun c hc => hpre c (List.mem_cons_of_mem _ hc)
    have e : i + 1 + rest.length = i + (rest.length + 1) := by omega
    cases c with
    | none => simp [runCallbacks, ih (i + 1) hrest, e]
    | some c0 =>
      have hc0 : c0.body result = CallOutcome.returned := hpre c0 (List.mem_cons_self _ _)
      simp [runCallbacks, hc0, ih (i + 1) hrest, e]

/-- Counterexample to C6: the first callback panics, the second one is
non-nil and comes after it, and it is never called. -/
theorem callback_after_panic_not_called :
    calls (processResult ⟨1, 50⟩ ⟨fun _ => 0, fun _ => SendOutcome.sent,
        fun _ => some ⟨"job-1", Result.value 7⟩, fun _ => true⟩
        ⟨"job-1", 7, 0, 3⟩
        [some ⟨1, fun _ => CallOutcome.panicked⟩, some ⟨2, fun _ => CallOutcome.returned⟩]
        1 0).trace = [(0, 1, Result.value 7)] ∧
    (1, 2, Result.value 7) ∉ calls (processResult ⟨1, 50⟩ ⟨fun _ => 0, fun _ => SendOutcome.sent,
        fun _ => some ⟨"job-1", Result.value 7⟩, fun _ => true⟩
        ⟨"job-1", 7, 0, 3⟩
        [some ⟨1, fun _ => CallOutcome.panicked⟩, some ⟨2, fun _ => CallOutcome.returned⟩]
        1 0).trace := by
  constructor
  · rfl
  · simp [processResult, runCallbacks, calls]

/-- C6, amended: a panic inside a callback ends the callback task. The
non-nil callbacks before the first panicking one are called, in order, then
the panicking one, and no callback after it is called: every call is at a
position up to that of the panicking callback. -/
theorem processResult_stops_at_panic (conf : Configuration) (env : Env) (j : job)
    (pre post : List (Option Callback)) (cb : Callback) (result : output) (k fuel : Nat)
    (hbefore : ∀ i, i < k → env.recv i = none)
    (harrive : env.recv k = some result)
    (hfuel : k < fuel)
    (hpre : ∀ c, some c ∈ pre → c.body result.result = CallOutcome.returned)
    (hcb : cb.body result.result = CallOutcome.panicked) :
    calls (processResult conf env j (pre ++ some cb :: post) fuel 0).trace =
      suppliedNonNil result.result (pre ++ [some cb]) ∧
    panics (processResult conf env j (pre ++ some cb :: post) fuel 0).trace = [pre.length] ∧
    ∀ c ∈ calls (processResult conf env j (pre ++ some cb :: post) fuel 0).trace,
      c.1 ≤ pre.length := by
  have hrun := processResult_arrives conf env j (pre ++ some cb :: post) result k fuel 0
    (fun i _ h2 => hbefore i (by omega)) (by simpa using harrive) hfuel
  obtain ⟨h1, _, h3⟩ := runCallbacks_of_returning result.result pre 0 hpre
  have hcalls : calls (processResult conf env j (pre ++ some cb :: post) fuel 0).trace =
      suppliedNonNil result.result (pre ++ [some cb]) := by
    rw [hrun, runCallbacks_until_panic result.result pre post cb 0 hpre hcb]
    simp [calls_append, calls_replicate_recvTimer, calls, h1, suppliedNonNil, List.enum,
      List.enumFrom_append, List.filterMap_append]
  refine ⟨hcalls, ?_, ?_⟩
  · rw [hrun, runCallbacks_until_panic result.result pre post cb 0 hpre hcb]
    simp [panics_append, panics_replicate_recvTimer, panics, h3]
  · rw [hcalls]
    intro c hc
    unfold suppliedNonNil at hc
    rw [List.mem_filterMap] at hc
    obtain ⟨p, hp, hpc⟩ := hc
    have hlt : p.1 < (pre ++ [some cb]).length := by
      have := List.fst_lt_of_mem_enum hp
      simpa using this
    cases hp2 : p.2 with
    | none => simp [hp2] at hpc
    | some c0 =>
      simp [hp2] at hpc
      subst hpc
      simp at hlt
      simp
      omega

/-- Witness of C6: a nil entry, a callback that returns, one that panics, and
one more after it, which is not called. -/
theorem processResult_stops_at_panic_witness :
    calls (processResult ⟨1, 50⟩ ⟨fun _ => 0, fun _ => SendOutcome.sent,
        fun _ => some ⟨"job-1", Result.value 7⟩, fun _ => true⟩ ⟨"job-1", 7, 0, 3⟩
        ([none, some ⟨1, fun _ => CallOutcome.returned⟩] ++
          some ⟨2, fun _ => CallOutcome.panicked⟩ :: [some ⟨3, fun _ => CallOutcome.returned⟩])
        1 0).trace = [(1, 1, Result.value 7), (2, 2, Result.value 7)] ∧
    panics (processResult ⟨1, 50⟩ ⟨fun _ => 0, fun _ => SendOutcome.sent,
        fun _ => some ⟨"job-1", Result.value 7⟩, fun _ => true⟩ ⟨"job-1", 7, 0, 3⟩
        ([none, some ⟨1, fun _ => CallOutcome.returned⟩] ++
          some ⟨2, fun _ => CallOutcome.panicked⟩ :: [some ⟨3, fun _ => CallOutcome.returned⟩])
        1 0).trace = [2] := by
  have h := processResult_stops_at_panic ⟨1, 50⟩ ⟨fun _ => 0, fun _ => SendOutcome.sent,
    fun _ => some ⟨"job-1", Result.value 7⟩, fun _ => true⟩ ⟨"job-1", 7, 0, 3⟩
    [none, some ⟨1, fun _ => CallOutcome.returned⟩]
    [some ⟨3, fun _ => CallOutcome.returned⟩] ⟨2, fun _ => CallOutcome.panicked⟩
    ⟨"job-1", Result.value 7⟩ 0 1 (by intro i hi; omega) rfl (by decide)
    (by intro c hc
        simp only [List.mem_cons, reduceCtorEq, Option.some.injEq, List.not_mem_nil,
          or_false, false_or] at hc
        subst hc; rfl)
    rfl
  exact ⟨h.1.trans rfl, h.2.1⟩

/-! ## The send loop of `fire` (C2, C3) -/

/-- Whatever the fuel, a run of the send loop is in one of three shapes: still
polling with nothing enqueued and nothing written; enqueued once with nothing
written; or expired with one `Expired` write and nothing enqueued. -/
theorem fireLoop_shape (NE : Duration) (conf : Configuration) (env : Env) (j : job)
    (cbs : List (Option Callback)) (waitFuel fuel k : Nat) :
    ((fireLoop NE conf env j cbs waitFuel fuel k).phase = Phase.polling ∧
        enqueued (fireLoop NE conf env j cbs waitFuel fuel k).trace = [] ∧
        written (fireLoop NE conf env j cbs waitFuel fuel k).trace = []) ∨
    (((fireLoop NE conf env j cbs waitFuel fuel k).phase = Phase.waiting ∨
        (fireLoop NE conf env j cbs waitFuel fuel k).phase = Phase.dispatched) ∧
        enqueued (fireLoop NE conf env j cbs waitFuel fuel k).trace = [j] ∧
        written (fireLoop NE conf env j cbs waitFuel fuel k).trace = []) ∨
    ((fireLoop NE conf env j cbs waitFuel fuel k).phase = Phase.expired ∧
        enqueued (fireLoop NE conf env j cbs waitFuel fuel k).trace = [] ∧
        written (fireLoop NE conf env j cbs waitFuel fuel k).trace = [expiredWrite j]) := by
  induction fuel generalizing k with
  | zero => left; simp [fireLoop, enqueued, written]
  | succ n ih =>
    unfold fireLoop
    split
    · cases h : env.attempt k with
      | sent =>
        right; left
        simp only [enqueued, written, enqueued_processResult, written_processResult]
        simpa using phase_processResult conf env j cbs waitFuel 0
      | timedOut =>
        simpa [enqueued, written] using ih (k + 1)
    · right; right
      simp [enqueued, written, expiredWrite]

/-- A send that goes through ends the polling within `k + 1` loop tests. -/
theorem fireLoop_leaves_polling_of_sent (NE : Duration) (conf : Configuration) (env : Env)
    (j : job) (cbs : List (Option Callback)) (waitFuel : Nat) (m : Nat) :
    ∀ (fuel k : Nat), env.attempt (k + m) = SendOutcome.sent → m < fuel →
      (fireLoop NE conf env j cbs waitFuel fuel k).phase ≠ Phase.polling := by
  induction m with
  | zero =>
    intro fuel k hsent hfuel
    obtain ⟨n, rfl⟩ : ∃ n, fuel = n + 1 := ⟨fuel - 1, by omega⟩
    simp only [Nat.add_zero] at hsent
    unfold fireLoop
    split
    · simp only [hsent]
      rcases phase_processResult conf env j cbs waitFuel 0 with h | h <;> simp [h]
    · simp
  | succ m ih =>
    intro fuel k hsent hfuel
    obtain ⟨n, rfl⟩ : ∃ n, fuel = n + 1 := ⟨fuel - 1, by omega⟩
    unfold fireLoop
    split
    · cases h : env.attempt k with
      | sent =>
        rcases phase_processResult conf env j cbs waitFuel 0 with h | h <;> simp [h]
      | timedOut =>
        exact ih n (k + 1) (by rw [← hsent]; congr 1; omega) (by omega)
    · simp

theorem min_pos (NE H E : Duration) (hH : 0 < H) (hE : 0 < E) : 0 < min NE H E := by
  unfold min
  split
  · exact hE
  · split
    · exact hH
    · split
      · exact hH
      · exact hE

/-- With a finite expiry the polling ends once the remaining budget is used up. -/
theorem fireLoop_leaves_polling_of_finite (NE : Duration) (conf : Configuration) (env : Env)
    (j : job) (cbs : List (Option Callback)) (waitFuel : Nat)
    (hfin : j.expiresAfter ≠ NE) (hH : 0 < conf.Heartbeat)
    (hadv : ∀ k, env.attempt k = SendOutcome.timedOut →
      env.since k + min NE conf.Heartbeat j.expiresAfter ≤ env.since (k + 1)) (m : Nat) :
    ∀ (fuel k : Nat), j.expiresAfter - (m : Int) ≤ env.since k → 0 ≤ env.since k → m < fuel →
      (fireLoop NE conf env j cbs waitFuel fuel k).phase ≠ Phase.polling := by
  induction m with
  | zero =>
    intro fuel k hk _ hfuel
    obtain ⟨n, rfl⟩ : ∃ n, fuel = n + 1 := ⟨fuel - 1, by omega⟩
    have hno : ¬ (j.expiresAfter = NE ∨ env.since k < j.expiresAfter) := by
      rintro (h | h)
      · exact hfin h
      · simp at hk; linarith
    unfold fireLoop
    simp [hno]
  | succ m ih =>
    intro fuel k hk hk0 hfuel
    obtain ⟨n, rfl⟩ : ∃ n, fuel = n + 1 := ⟨fuel - 1, by omega⟩
    unfold fireLoop
    split
    · rename_i hc
      have hlt : env.since k < j.expiresAfter := by
        rcases hc with h | h
        · exact absurd h hfin
        · exact h
      have hE : 0 < j.expiresAfter := lt_of_le_of_lt hk0 hlt
      have hd : 0 < min NE conf.Heartbeat j.expiresAfter := min_pos NE _ _ hH hE
      cases h : env.attempt k with
      | sent =>
        rcases phase_processResult conf env j cbs waitFuel 0 with h | h <;> simp [h]
      | timedOut =>
        have := hadv k h
        have hd1 : (1 : Int) ≤ min NE conf.Heartbeat j.expiresAfter := hd
        exact ih n (k + 1) (by push_cast at hk; linarith) (by linarith) (by omega)
    · simp

/-- A never-expiring job whose sends all time out stays in the send loop. -/
theorem fireLoop_polls_forever (NE : Duration) (conf : Configuration) (env : Env) (j : job)
    (cbs : List (Option Callback)) (waitFuel : Nat)
    (hnever : j.expiresAfter = NE) (hto : ∀ k, env.attempt k = SendOutcome.timedOut) :
    ∀ (fuel k : Nat),
      (fireLoop NE conf env j cbs waitFuel fuel k).phase = Phase.polling ∧
      enqueued (fireLoop NE conf env j cbs waitFuel fuel k).trace = [] ∧
      written (fireLoop NE conf env j cbs waitFuel fuel k).trace = [] := by
  intro fuel
  induction fuel with
  | zero => intro k; simp [fireLoop, enqueued, written]
  | succ n ih =>
    intro k
    unfold fireLoop
    simp only [hnever, true_or, if_true, hto k]
    simpa [enqueued, written, hnever] using ih (k + 1)

/-- Counterexample to C2: a never-expiring job (sentinel `0`) whose sends
all time out is, at every point of the run, neither on the queue nor
expired; the same holds for any other value of the sentinel. -/
theorem never_expiring_job_neither_enqueued_nor_expired :
    ¬ ∃ fuel : Nat,
      (enqueued (fire 0 ⟨1, 50⟩ ⟨fun k => 50 * k, fun _ => SendOutcome.timedOut,
            fun _ => none, fun _ => true⟩ ⟨"job-1", 7, 0, 3⟩ [] fuel).trace
          = [⟨"job-1", 7, 0, 3⟩] ∧
        written (fire 0 ⟨1, 50⟩ ⟨fun k => 50 * k, fun _ => SendOutcome.timedOut,
            fun _ => none, fun _ => true⟩ ⟨"job-1", 7, 0, 3⟩ [] fuel).trace = []) ∨
      (enqueued (fire 0 ⟨1, 50⟩ ⟨fun k => 50 * k, fun _ => SendOutcome.timedOut,
            fun _ => none, fun _ => true⟩ ⟨"job-1", 7, 0, 3⟩ [] fuel).trace = [] ∧
        written (fire 0 ⟨1, 50⟩ ⟨fun k => 50 * k, fun _ => SendOutcome.timedOut,
            fun _ => none, fun _ => true⟩ ⟨"job-1", 7, 0, 3⟩ [] fuel).trace
          = [expiredWrite ⟨"job-1", 7, 0, 3⟩]) := by
  rintro ⟨fuel, h⟩
  obtain ⟨_, h1, h2⟩ := fireLoop_polls_forever 0 ⟨1, 50⟩ ⟨fun k => 50 * k,
    fun _ => SendOutcome.timedOut, fun _ => none, fun _ => true⟩ ⟨"job-1", 7, 0, 3⟩ []
    fuel rfl (fun _ => rfl) fuel 0
  unfold fire at h
  rw [h1, h2] at h
  rcases h with ⟨h, _⟩ | ⟨_, h⟩
  · exact absurd h (by simp)
  · exact absurd h (by simp)

/-- C2, amended: at every point of every run of `fire` the job has been put
on the shared queue at most once, at most one result has been written by
`fire`, that result is `Expired` with the job's own correlation id in the
job's own slot, and never both an enqueue and a write have happened. When
some send goes through, or the expiry is finite (heartbeat positive, clock
advancing), `fire` leaves its send loop and from then on exactly one of the
two has happened. A never-expiring job whose sends all time out stays in the
loop, with neither. -/
theorem fire_enqueues_or_expires_never_both (NE : Duration) (conf : Configuration)
    (env : Env) (j : job) (cbs : List (Option Callback)) :
    (∀ fuel, (enqueued (fire NE conf env j cbs fuel).trace = [] ∨
        enqueued (fire NE conf env j cbs fuel).trace = [j]) ∧
      (written (fire NE conf env j cbs fuel).trace = [] ∨
        written (fire NE conf env j cbs fuel).trace =
          [(j.output, newOutput j.correlationId Result.Expired)]) ∧
      ¬ (enqueued (fire NE conf env j cbs fuel).trace ≠ [] ∧
        written (fire NE conf env j cbs fuel).trace ≠ [])) ∧
    (((∃ k, env.attempt k = SendOutcome.sent) ∨
        (j.expiresAfter ≠ NE ∧ 0 < conf.Heartbeat ∧ ClockAdvances NE conf env j)) →
      ∃ n, ∀ fuel, n ≤ fuel →
        ((enqueued (fire NE conf env j cbs fuel).trace = [j] ∧
            written (fire NE conf env j cbs fuel).trace = []) ∨
          (enqueued (fire NE conf env j cbs fuel).trace = [] ∧
            written (fire NE conf env j cbs fuel).trace =
              [(j.output, newOutput j.correlationId Result.Expired)]))) ∧
    (j.expiresAfter = NE → (∀ k, env.attempt k = SendOutcome.timedOut) →
      ∀ fuel, (fire NE conf env j cbs fuel).phase = Phase.polling ∧
        enqueued (fire NE conf env j cbs fuel).trace = [] ∧
        written (fire NE conf env j cbs fuel).trace = []) := by
  refine ⟨?_, ?_, ?_⟩
  · intro fuel
    unfold fire
    rcases fireLoop_shape NE conf env j cbs fuel fuel 0 with ⟨_, h1, h2⟩ | ⟨_, h1, h2⟩ |
      ⟨_, h1, h2⟩ <;> simp [h1, h2, expiredWrite]
  · intro hleaves
    have hout : ∃ n, ∀ fuel, n ≤ fuel →
        (fire NE conf env j cbs fuel).phase ≠ Phase.polling := by
      rcases hleaves with ⟨k, hk⟩ | ⟨hfin, hH, h0, hadv⟩
      · refine ⟨k + 1, fun fuel hfuel => ?_⟩
        exact fireLoop_leaves_polling_of_sent NE conf env j cbs fuel k fuel 0
          (by simpa using hk) (by omega)
      · refine ⟨j.expiresAfter.toNat + 1, fun fuel hfuel => ?_⟩
        refine fireLoop_leaves_polling_of_finite NE conf env j cbs fuel hfin hH hadv
          j.expiresAfter.toNat fuel 0 ?_ h0 (by omega)
        have := Int.self_le_toNat j.expiresAfter
        linarith
    obtain ⟨n, hn⟩ := hout
    refine ⟨n, fun fuel hfuel => ?_⟩
    have hp := hn fuel hfuel
    unfold fire at hp ⊢
    rcases fireLoop_shape NE conf env j cbs fuel fuel 0 with ⟨h0, _, _⟩ | ⟨_, h1, h2⟩ |
      ⟨_, h1, h2⟩
    · exact absurd h0 hp
    · left; exact ⟨h1, h2⟩
    · right; exact ⟨h1, h2⟩
  · intro hnever hto fuel
    exact fireLoop_polls_forever NE conf env j cbs fuel hnever hto fuel 0

/-- Witness of C2: expiry of 100 with a heartbeat of 50; the first send times
out and the second goes through. -/
theorem fire_enqueues_or_expires_never_both_witness :
    ∃ n, ∀ fuel, n ≤ fuel →
      ((enqueued (fire 0 ⟨1, 50⟩ ⟨fun k => 50 * k,
            fun k => if k = 1 then SendOutcome.sent else SendOutcome.timedOut,
            fun _ => none, fun _ => true⟩ ⟨"job-1", 7, 100, 3⟩ [] fuel).trace
          = [⟨"job-1", 7, 100, 3⟩] ∧
        written (fire 0 ⟨1, 50⟩ ⟨fun k => 50 * k,
            fun k => if k = 1 then SendOutcome.sent else SendOutcome.timedOut,
            fun _ => none, fun _ => true⟩ ⟨"job-1", 7, 100, 3⟩ [] fuel).trace = []) ∨
      (enqueued (fire 0 ⟨1, 50⟩ ⟨fun k => 50 * k,
            fun k => if k = 1 then SendOutcome.sent else SendOutcome.timedOut,
            fun _ => none, fun _ => true⟩ ⟨"job-1", 7, 100, 3⟩ [] fuel).trace = [] ∧
        written (fire 0 ⟨1, 50⟩ ⟨fun k => 50 * k,
            fun k => if k = 1 then SendOutcome.sent else SendOutcome.timedOut,
            fun _ => none, fun _ => true⟩ ⟨"job-1", 7, 100, 3⟩ [] fuel).trace
          = [((3 : Nat), newOutput "job-1" Result.Expired)])) :=
  (fire_enqueues_or_expires_never_both 0 ⟨1, 50⟩ ⟨fun k => 50 * k,
    fun k => if k = 1 then SendOutcome.sent else SendOutcome.timedOut,
    fun _ => none, fun _ => true⟩ ⟨"job-1", 7, 100, 3⟩ []).2.1 (Or.inl ⟨1, rfl⟩)

/-- C3: a job whose expiry is at most zero, and not the sentinel, is expired
at the first loop test of `fire`: no poll is armed, the job is not put on the
shared queue, and the one result written to its slot is `Expired`. -/
theorem fire_expires_at_once (NE : Duration) (conf : Configuration) (env : Env) (j : job)
    (cbs : List (Option Callback)) (fuel : Nat)
    (hle : j.expiresAfter ≤ 0) (hfin : j.expiresAfter ≠ NE) (hclock : 0 ≤ env.since 0) :
    fire NE conf env j cbs (fuel + 1) =
      { trace := [Event.expire (env.since 0),
                  Event.write j.output (newOutput j.correlationId Result.Expired)]
        phase := Phase.expired } ∧
    sendTimers (fire NE conf env j cbs (fuel + 1)).trace = [] ∧
    enqueued (fire NE conf env j cbs (fuel + 1)).trace = [] ∧
    written (fire NE conf env j cbs (fuel + 1)).trace =
      [(j.output, newOutput j.correlationId Result.Expired)] ∧
    calls (fire NE conf env j cbs (fuel + 1)).trace = [] := by
  have hno : ¬ (j.expiresAfter = NE ∨ env.since 0 < j.expiresAfter) := by
    rintro (h | h)
    · exact hfin h
    · linarith
  have hrun : fire NE conf env j cbs (fuel + 1) =
      { trace := [Event.expire (env.since 0),
                  Event.write j.output (newOutput j.correlationId Result.Expired)]
        phase := Phase.expired } := by
    unfold fire fireLoop
    simp [hno]
  rw [hrun]
  simp [sendTimers, enqueued, written, calls]

/-- Witness of C3: expiry `-5` with sentinel `0`. -/
theorem fire_expires_at_once_witness :
    fire 0 ⟨1, 50⟩ ⟨fun k => 50 * k, fun _ => SendOutcome.sent,
        fun _ => some ⟨"job-1", Result.value 7⟩, fun _ => true⟩ ⟨"job-1", 7, -5, 3⟩ [] 1 =
      { trace := [Event.expire 0, Event.write 3 (newOutput "job-1" Result.Expired)]
        phase := Phase.expired } :=
  (fire_expires_at_once 0 ⟨1, 50⟩ ⟨fun k => 50 * k, fun _ => SendOutcome.sent,
    fun _ => some ⟨"job-1", Result.value 7⟩, fun _ => true⟩ ⟨"job-1", 7, -5, 3⟩ [] 0
    (by decide) (by decide) (by decide)).1

/-! ## `FireJob` and `ExecuteJob` on the expiry path (C1), the poll interval (C4) -/

theorem awaitResult_nil (env : Env) (fuel k : Nat) : awaitResult env [] fuel k = none := by
  induction fuel generalizing k with
  | zero => rfl
  | succ n ih => simp [awaitResult, ih]

/-- With a finite expiry and every send before the deadline timing out, a run
of the send loop is still polling or has expired, and has called nothing. -/
theorem fireLoop_no_calls_of_timeouts (NE : Duration) (conf : Configuration) (env : Env)
    (j : job) (cbs : List (Option Callback)) (waitFuel : Nat)
    (hfin : j.expiresAfter ≠ NE)
    (hto : ∀ k, env.since k < j.expiresAfter → env.attempt k = SendOutcome.timedOut) :
    ∀ (fuel k : Nat),
      calls (fireLoop NE conf env j cbs waitFuel fuel k).trace = [] ∧
      ((fireLoop NE conf env j cbs waitFuel fuel k).phase = Phase.polling ∨
        (fireLoop NE conf env j cbs waitFuel fuel k).phase = Phase.expired) := by
  intro fuel
  induction fuel with
  | zero => intro k; simp [fireLoop, calls]
  | succ n ih =>
    intro k
    unfold fireLoop
    split
    · rename_i hc
      have hlt : env.since k < j.expiresAfter := by
        rcases hc with h | h
        · exact absurd h hfin
        · exact h
      simp only [hto k hlt]
      simpa [calls] using ih (k + 1)
    · simp [calls]

/-- On the send path the caller does get its result: the job is enqueued at
once, the output arrives, the forwarding callback hands it over and
`ExecuteJob` returns it with a nil error. -/
theorem ExecuteJob_returns_processed :
    ExecuteJob 0 ⟨1, 50⟩ ⟨fun k => 50 * k, fun _ => SendOutcome.sent,
        fun _ => some ⟨"job-1", Result.value 8⟩, fun _ => true⟩
        (fun p => Except.ok ⟨"job-1", p, 100, 3⟩) 7 1 = some (some (Result.value 8), none) := by
  decide

/-- C1 fails on the code: with a finite expiry and every send timing out until
the expiry has elapsed, `fire` writes `Expired` into the job's slot and
returns without calling `processResult`. So the task of `FireJob` calls no
callback at all, and `ExecuteJob`, whose private channel is never offered a
value, does not return, whatever the fuel. With a positive heartbeat and an
advancing clock the expiry path is indeed reached. -/
theorem expired_result_never_reaches_caller (NE : Duration) (conf : Configuration)
    (env : Env) (newJob : Payload → Except String job) (payload : Payload) (j : job)
    (cbs : List (Option Callback)) (fuel : Nat)
    (hjob : newJob payload = Except.ok j)
    (hfin : j.expiresAfter ≠ NE)
    (hto : ∀ k, env.since k < j.expiresAfter → env.attempt k = SendOutcome.timedOut) :
    (FireJob NE conf env newJob payload cbs fuel).2 = some (fire NE conf env j cbs fuel) ∧
    calls (fire NE conf env j cbs fuel).trace = [] ∧
    ((fire NE conf env j cbs fuel).phase = Phase.polling ∨
      ((fire NE conf env j cbs fuel).phase = Phase.expired ∧
        written (fire NE conf env j cbs fuel).trace =
          [(j.output, newOutput j.correlationId Result.Expired)])) ∧
    ExecuteJob NE conf env newJob payload fuel = none ∧
    (0 < conf.Heartbeat → ClockAdvances NE conf env j →
      ∃ n, ∀ m, n ≤ m →
        (fire NE conf env j cbs m).phase = Phase.expired ∧
        written (fire NE conf env j cbs m).trace =
          [(j.output, newOutput j.correlationId Result.Expired)] ∧
        calls (fire NE conf env j cbs m).trace = []) := by
  have hshape : ∀ m, (fire NE conf env j cbs m).phase = Phase.polling ∨
      ((fire NE conf env j cbs m).phase = Phase.expired ∧
        written (fire NE conf env j cbs m).trace =
          [(j.output, newOutput j.correlationId Result.Expired)]) := by
    intro m
    rcases fireLoop_shape NE conf env j cbs m m 0 with ⟨h0, _, _⟩ | ⟨h0, _, _⟩ |
      ⟨h0, _, h2⟩
    · exact Or.inl h0
    · rcases (fireLoop_no_calls_of_timeouts NE conf env j cbs m hfin hto m 0).2 with
        h | h <;> rcases h0 with h0 | h0 <;> rw [h] at h0 <;> cases h0
    · exact Or.inr ⟨h0, h2⟩
  refine ⟨by simp [FireJob, hjob], ?_, hshape fuel, ?_, ?_⟩
  · exact (fireLoop_no_calls_of_timeouts NE conf env j cbs fuel hfin hto fuel 0).1
  · have hc := (fireLoop_no_calls_of_timeouts NE conf env j [some forward] fuel hfin hto
      fuel 0).1
    simp only [ExecuteJob, hjob]
    split
    · simp [offered, fire, hc, awaitResult_nil]
    · rfl
  · intro hH hclock
    refine ⟨j.expiresAfter.toNat + 1, fun m hm => ?_⟩
    have hp : (fire NE conf env j cbs m).phase ≠ Phase.polling := by
      refine fireLoop_leaves_polling_of_finite NE conf env j cbs m hfin hH hclock.2
        j.expiresAfter.toNat m 0 ?_ hclock.1 (by omega)
      have := Int.self_le_toNat j.expiresAfter
      have h0 := hclock.1
      linarith
    rcases hshape m with h | ⟨h1, h2⟩
    · exact absurd h hp
    · exact ⟨h1, h2, (fireLoop_no_calls_of_timeouts NE conf env j cbs m hfin hto m 0).1⟩

/-- Witness of C1 failing: heartbeat 50, expiry 100, every send timing out;
`fire` returns after two polls with `Expired` in the slot, callback 1 is never
called and `ExecuteJob` is still looping after 1000 rounds. -/
theorem expired_result_never_reaches_caller_witness :
    fire 0 ⟨1, 50⟩ ⟨fun k => 50 * k, fun _ => SendOutcome.timedOut, fun _ => none,
        fun _ => true⟩ ⟨"job-1", 7, 100, 3⟩ [some ⟨1, fun _ => CallOutcome.returned⟩] 3 =
      { trace := [Event.sendTimer 50, Event.sendTimer 50, Event.expire 100,
                  Event.write 3 (newOutput "job-1" Result.Expired)]
        phase := Phase.expired } ∧
    calls (fire 0 ⟨1, 50⟩ ⟨fun k => 50 * k, fun _ => SendOutcome.timedOut, fun _ => none,
        fun _ => true⟩ ⟨"job-1", 7, 100, 3⟩ [some ⟨1, fun _ => CallOutcome.returned⟩] 3).trace
      = [] ∧
    ExecuteJob 0 ⟨1, 50⟩ ⟨fun k => 50 * k, fun _ => SendOutcome.timedOut, fun _ => none,
        fun _ => true⟩ (fun p => Except.ok ⟨"job-1", p, 100, 3⟩) 7 1000 = none := by
  have h := expired_result_never_reaches_caller 0 ⟨1, 50⟩ ⟨fun k => 50 * k,
    fun _ => SendOutcome.timedOut, fun _ => none, fun _ => true⟩
    (fun p => Except.ok ⟨"job-1", p, 100, 3⟩) 7 ⟨"job-1", 7, 100, 3⟩
    [some ⟨1, fun _ => CallOutcome.returned⟩]
  exact ⟨by decide, (h 3 rfl (by decide) (fun _ _ => rfl)).2.1,
    (h 1000 rfl (by decide) (fun _ _ => rfl)).2.2.2.1⟩

/-- A run of timeouts: `m` polls are armed and time out, then the loop test
fails and the job is expired. -/
theorem fireLoop_expires_after (NE : Duration) (conf : Configuration) (env : Env) (j : job)
    (cbs : List (Option Callback)) (waitFuel : Nat)
    (hfin : j.expiresAfter ≠ NE) (hto : ∀ k, env.attempt k = SendOutcome.timedOut)
    (m : Nat) :
    ∀ (fuel k : Nat), (∀ i, i < m → env.since (k + i) < j.expiresAfter) →
      ¬ env.since (k + m) < j.expiresAfter → m < fuel →
      fireLoop NE conf env j cbs waitFuel fuel k =
        { trace := List.replicate m
              (Event.sendTimer (min NE conf.Heartbeat j.expiresAfter)) ++
            [Event.expire (env.since (k + m)),
             Event.write j.output (newOutput j.correlationId Result.Expired)]
          phase := Phase.expired } := by
  induction m with
  | zero =>
    intro fuel k _ hend hfuel
    obtain ⟨n, rfl⟩ : ∃ n, fuel = n + 1 := ⟨fuel - 1, by omega⟩
    simp only [Nat.add_zero] at hend
    unfold fireLoop
    simp [hfin, hend]
  | succ m ih =>
    intro fuel k hlt hend hfuel
    obtain ⟨n, rfl⟩ : ∃ n, fuel = n + 1 := ⟨fuel - 1, by omega⟩
    have h0 : env.since k < j.expiresAfter := by simpa using hlt 0 (by omega)
    have hrest := ih n (k + 1)
      (fun i hi => by have := hlt (i + 1) (by omega); rwa [show k + 1 + i = k + (i + 1) by omega])
      (by rwa [show k + 1 + m = k + (m + 1) by omega]) (by omega)
    unfold fireLoop
    simp only [h0, or_true, if_true, hto k, hrest, List.replicate_succ]
    simp [show k + 1 + m = k + (m + 1) by omega]

/-- Counterexample to C4: heartbeat 30, expiry 100, every send timing out and
the clock advancing by the poll timeout. All four polls are armed with 30,
not with the smaller of the heartbeat and the remaining expiry (the fourth
starts at 90, where that is 10), and expiry is declared at 120, not at 100. -/
theorem poll_overshoots_deadline :
    sendTimers (fire 0 ⟨1, 30⟩ ⟨fun k => 30 * k, fun _ => SendOutcome.timedOut, fun _ => none,
        fun _ => true⟩ ⟨"job-1", 7, 100, 3⟩ [] 5).trace = [30, 30, 30, 30] ∧
    sendTimers (fire 0 ⟨1, 30⟩ ⟨fun k => 30 * k, fun _ => SendOutcome.timedOut, fun _ => none,
        fun _ => true⟩ ⟨"job-1", 7, 100, 3⟩ [] 5).trace ≠
      [specPollInterval 30 100 0, specPollInterval 30 100 30, specPollInterval 30 100 60,
        specPollInterval 30 100 90] ∧
    expiries (fire 0 ⟨1, 30⟩ ⟨fun k => 30 * k, fun _ => SendOutcome.timedOut, fun _ => none,
        fun _ => true⟩ ⟨"job-1", 7, 100, 3⟩ [] 5).trace = [120] ∧
    expiries (fire 0 ⟨1, 30⟩ ⟨fun k => 30 * k, fun _ => SendOutcome.timedOut, fun _ => none,
        fun _ => true⟩ ⟨"job-1", 7, 100, 3⟩ [] 5).trace ≠ [100] := by
  decide

theorem since_linear (env : Env) (d : Duration) (h0 : env.since 0 = 0)
    (hstep : ∀ k, env.since (k + 1) = env.since k + d) (k : Nat) :
    env.since k = (k : Int) * d := by
  induction k with
  | zero => simpa using h0
  | succ n ih => rw [hstep n, ih]; push_cast; ring

/-- C4, amended: every poll of `fire` is armed with `min` of the heartbeat and
the job's full expiry `E`, not the remaining expiry. When every send times
out and the clock advances by exactly that timeout `d`, the job is declared
expired after `n` polls at elapsed time `n * d`, the first multiple of `d`
that reaches `E`: it is at least `E` and less than `E + d`, and it is exactly
`E` precisely when `d` divides `E` (as when `E` is at most the heartbeat). -/
theorem fire_expires_at_first_multiple (NE : Duration) (conf : Configuration) (env : Env)
    (j : job) (cbs : List (Option Callback))
    (hfin : j.expiresAfter ≠ NE) (hE : 0 < j.expiresAfter) (hH : 0 < conf.Heartbeat)
    (hto : ∀ k, env.attempt k = SendOutcome.timedOut)
    (h0 : env.since 0 = 0)
    (hstep : ∀ k, env.since (k + 1) =
      env.since k + min NE conf.Heartbeat j.expiresAfter) :
    (conf.Heartbeat ≠ NE →
      min NE conf.Heartbeat j.expiresAfter = Min.min conf.Heartbeat j.expiresAfter) ∧
    ∃ n : Nat,
      (∀ fuel, n < fuel →
        fire NE conf env j cbs fuel =
          { trace := List.replicate n
                (Event.sendTimer (min NE conf.Heartbeat j.expiresAfter)) ++
              [Event.expire ((n : Int) * min NE conf.Heartbeat j.expiresAfter),
               Event.write j.output (newOutput j.correlationId Result.Expired)]
            phase := Phase.expired }) ∧
      j.expiresAfter ≤ (n : Int) * min NE conf.Heartbeat j.expiresAfter ∧
      (n : Int) * min NE conf.Heartbeat j.expiresAfter <
        j.expiresAfter + min NE conf.Heartbeat j.expiresAfter ∧
      ((n : Int) * min NE conf.Heartbeat j.expiresAfter = j.expiresAfter ↔
        min NE conf.Heartbeat j.expiresAfter ∣ j.expiresAfter) ∧
      (j.expiresAfter ≤ conf.Heartbeat →
        (n : Int) * min NE conf.Heartbeat j.expiresAfter = j.expiresAfter) := by
  have hd : 0 < min NE conf.Heartbeat j.expiresAfter := min_pos NE _ _ hH hE
  have hdle : min NE conf.Heartbeat j.expiresAfter ≤ j.expiresAfter := by
    unfold min
    split
    · exact le_refl _
    · split
      · rename_i h; exact le_of_lt h
      · exact le_refl _
  constructor
  · intro hne
    unfold min
    rw [if_neg hne, if_neg hfin]
    split
    · rename_i h; exact (min_eq_left (le_of_lt h)).symm
    · rename_i h; exact (min_eq_right (not_lt.mp h)).symm
  generalize hdef : min NE conf.Heartbeat j.expiresAfter = d at hd hdle hstep ⊢
  have hlin := since_linear env d h0 hstep
  set E := j.expiresAfter with hEdef
  -- the number of polls: the least `n` with `E ≤ n * d`
  set q : Int := (E + d - 1) / d with hq
  have hmod := Int.emod_add_ediv (E + d - 1) d
  have hm0 := Int.emod_nonneg (E + d - 1) (ne_of_gt hd)
  have hm1 := Int.emod_lt_of_pos (E + d - 1) hd
  rw [← hq] at hmod
  have hqd : q * d = d * q := mul_comm q d
  have hlow : E ≤ q * d := by linarith
  have hup : q * d < E + d := by linarith
  have hqpos : 0 < q := by
    by_contra hneg
    have hq0 : q ≤ 0 := not_lt.mp hneg
    have : q * d ≤ 0 := mul_nonpos_of_nonpos_of_nonneg hq0 (le_of_lt hd)
    linarith
  have hcast : ((q.toNat : Nat) : Int) = q := Int.toNat_of_nonneg (le_of_lt hqpos)
  refine ⟨q.toNat, ?_, ?_, ?_, ?_, ?_⟩
  · intro fuel hfuel
    have hrun := fireLoop_expires_after NE conf env j cbs fuel hfin hto q.toNat fuel 0
      (fun i hi => by
        rw [Nat.zero_add, hlin i]
        have hi1 : (i : Int) + 1 ≤ q := by
          have : ((i + 1 : Nat) : Int) ≤ (q.toNat : Int) := by exact_mod_cast hi
          rw [hcast] at this
          push_cast at this
          exact this
        have : ((i : Int) + 1) * d ≤ q * d := mul_le_mul_of_nonneg_right hi1 (le_of_lt hd)
        show (i : Int) * d < E
        linarith)
      (by
        rw [Nat.zero_add, hlin q.toNat, hcast]
        exact not_lt.mpr hlow)
      hfuel
    unfold fire
    rw [hrun, hdef, Nat.zero_add, hlin q.toNat]
  · rw [hcast]; exact hlow
  · rw [hcast]; exact hup
  · rw [hcast]
    constructor
    · intro h; exact ⟨q, by rw [← h, mul_comm]⟩
    · rintro ⟨c, hc⟩
      have h1 : d * c ≤ d * q := by rw [← hc, ← hqd]; exact hlow
      have h2 : d * q < d * (c + 1) := by rw [mul_add, mul_one, ← hc, ← hqd]; exact hup
      have h3 : c ≤ q := le_of_mul_le_mul_left h1 hd
      have h4 : q < c + 1 := lt_of_mul_lt_mul_left h2 (le_of_lt hd)
      have : q = c := by omega
      rw [this, hc, mul_comm]
  · intro hle
    rw [hcast]
    have hdE : d = E := by
      rw [← hdef]
      unfold min
      split
      · rfl
      · split
        · rename_i h; exact absurd h (not_lt.mpr hle)
        · rfl
    have h1 : d * 1 ≤ d * q := by rw [mul_one, ← hqd]; linarith
    have h2 : d * q < d * 2 := by rw [← hqd]; linarith
    have h4 : q < 2 := lt_of_mul_lt_mul_left h2 (le_of_lt hd)
    have : q = 1 := by omega
    rw [this, one_mul, hdE]

/-- Witness of C4: heartbeat 30, expiry 100, the clock advancing by 30. -/
theorem fire_expires_at_first_multiple_witness :
    ∃ n : Nat,
      (∀ fuel, n < fuel →
        fire 0 ⟨1, 30⟩ ⟨fun k => 30 * k, fun _ => SendOutcome.timedOut, fun _ => none,
            fun _ => true⟩ ⟨"job-1", 7, 100, 3⟩ [] fuel =
          { trace := List.replicate n (Event.sendTimer (min 0 30 100)) ++
              [Event.expire ((n : Int) * min 0 30 100),
               Event.write 3 (newOutput "job-1" Result.Expired)]
            phase := Phase.expired }) ∧
      (100 : Int) ≤ (n : Int) * min 0 30 100 ∧
      (n : Int) * min 0 30 100 < 100 + min 0 30 100 := by
  obtain ⟨n, h1, h2, h3, _⟩ := (fire_expires_at_first_multiple 0 ⟨1, 30⟩
    ⟨fun k => 30 * k, fun _ => SendOutcome.timedOut, fun _ => none, fun _ => true⟩
    ⟨"job-1", 7, 100, 3⟩ [] (by decide) (by decide) (by decide) (fun _ => rfl) (by simp)
    (by intro k
        show (30 : Int) * ((k + 1 : Nat) : Int) = 30 * (k : Int) + min 0 30 100
        have : min 0 30 100 = 30 := by decide
        rw [this]; push_cast; ring)).2
  exact ⟨n, h1, h2, h3⟩

/-! ## The worker loop (C7) -/

theorem step_status {π : Type} (P : Processor π) (w : worker π) (counter : Nat)
    (ev : Select) : (step P w counter ev).w.status = w.status := by
  cases ev with
  | signal s => by_cases h : s = KillSignal <;> simp [step, h]
  | job j => rfl
  | closed => rfl
  | heartbeat => rfl

theorem step_exit_iff {π : Type} (P : Processor π) (w : worker π) (counter : Nat)
    (ev : Select) :
    (step P w counter ev).exit = true ↔ (ev = Select.signal KillSignal ∨ ev = Select.closed) := by
  cases ev with
  | signal s =>
    unfold step
    by_cases h : s = KillSignal
    · simp [h]
    · simp [h]
  | job j => simp [step]
  | closed => simp [step]
  | heartbeat => simp [step]

theorem runLoop_status {π : Type} (P : Processor π) (evs : List Select) :
    ∀ (w : worker π) (counter : Nat), (runLoop P evs w counter).w.status = w.status := by
  induction evs with
  | nil => intro w counter; rfl
  | cons ev rest ih =>
    intro w counter
    unfold runLoop
    split
    · simp only
      split
      · exact step_status P w counter ev
      · simp only [ih]
        exact step_status P w counter ev
    · rfl

theorem runLoop_exit_iff {π : Type} (P : Processor π) (evs : List Select) :
    ∀ (w : worker π) (counter : Nat), w.status = Alive →
      ((runLoop P evs w counter).exit = true ↔
        ∃ ev ∈ evs, ev = Select.signal KillSignal ∨ ev = Select.closed) := by
  induction evs with
  | nil => intro w counter h; simp [runLoop, isAlive, h]
  | cons ev rest ih =>
    intro w counter h
    have hal : isAlive w = true := by simp [isAlive, h]
    unfold runLoop
    simp only [hal, if_true]
    by_cases hx : (step P w counter ev).exit = true
    · simp only [hx, if_true]
      have := (step_exit_iff P w counter ev).mp hx
      simp [this]
    · simp only [hx]
      have hne := mt (step_exit_iff P w counter ev).mpr hx
      have hst : (step P w counter ev).w.status = Alive := by rw [step_status]; exact h
      have := ih (step P w counter ev).w (step P w counter ev).counter hst
      simp only [Bool.false_eq_true, if_false, this, List.mem_cons, exists_eq_or_imp]
      constructor
      · intro h2; exact Or.inr h2
      · rintro (h2 | h2)
        · exact absurd h2 hne
        · exact h2

/-- C7: the loop of `run` on an Alive worker. A kill signal leaves the loop;
any other signal changes nothing and the loop goes on; a job from the open
queue means one call of `Process` on its payload and one result, with the
job's correlation id and the value `Process` returned, pushed on the job's own
slot, the worker staying Alive; a closed queue leaves the loop with no call
of `Process`; a heartbeat changes no state. Over any sequence of `select`
outcomes the loop is left exactly when a kill signal or a closed queue is
among them, and the worker is Alive throughout. -/
theorem worker_loop_state_machine {π : Type} (P : Processor π) (w : worker π)
    (counter : Nat) (halive : w.status = Alive) :
    (step P w counter (Select.signal KillSignal)).exit = true ∧
    (∀ s, s ≠ KillSignal →
      (step P w counter (Select.signal s)).exit = false ∧
      (step P w counter (Select.signal s)).w = w ∧
      (step P w counter (Select.signal s)).counter = counter ∧
      (step P w counter (Select.signal s)).w.status = Alive) ∧
    (∀ j : job,
      (step P w counter (Select.job j)).exit = false ∧
      (step P w counter (Select.job j)).trace =
        [WorkerEvent.process j.payload,
         WorkerEvent.push j.output
           (newOutput j.correlationId (P.Process w.processor j.payload).1)] ∧
      (step P w counter (Select.job j)).w.status = Alive) ∧
    ((step P w counter Select.closed).exit = true ∧
      (step P w counter Select.closed).trace = []) ∧
    ((step P w counter Select.heartbeat).exit = false ∧
      (step P w counter Select.heartbeat).w = w ∧
      (step P w counter Select.heartbeat).counter = counter) ∧
    (∀ evs : List Select,
      ((runLoop P evs w counter).exit = true ↔
        ∃ ev ∈ evs, ev = Select.signal KillSignal ∨ ev = Select.closed) ∧
      (runLoop P evs w counter).w.status = Alive) := by
  refine ⟨by simp [step], ?_, ?_, by simp [step], by simp [step], ?_⟩
  · intro s hs
    simp [step, hs, halive]
  · intro j
    simp [step, halive]
  · intro evs
    exact ⟨runLoop_exit_iff P evs w counter halive, by rw [runLoop_status]; exact halive⟩

/-- Witness of C7: a worker as constructed, fed a heartbeat, an unknown
signal, a job and a kill signal. -/
theorem worker_loop_state_machine_witness :
    (runLoop (⟨fun p => (none, p), fun p x => (Result.value (x + 1), p + 1), fun p => p⟩ :
        Processor Nat)
      [Select.heartbeat, Select.signal 3, Select.job ⟨"job-1", 7, 0, 3⟩,
        Select.signal KillSignal]
      (newWorker "pool-worker-1" 50 0) 0).exit = true ∧
    (runLoop (⟨fun p => (none, p), fun p x => (Result.value (x + 1), p + 1), fun p => p⟩ :
        Processor Nat)
      [Select.heartbeat, Select.signal 3, Select.job ⟨"job-1", 7, 0, 3⟩,
        Select.signal KillSignal]
      (newWorker "pool-worker-1" 50 0) 0).trace =
      [WorkerEvent.heartbeat 50, WorkerEvent.signal 3, WorkerEvent.process 7,
        WorkerEvent.push 3 (newOutput "job-1" (Result.value 8)), WorkerEvent.signal 9] := by
  have h := (worker_loop_state_machine (⟨fun p => (none, p),
    fun p x => (Result.value (x + 1), p + 1), fun p => p⟩ : Processor Nat)
    (newWorker "pool-worker-1" 50 0) 0 rfl).2.2.2.2.2
    [Select.heartbeat, Select.signal 3, Select.job ⟨"job-1", 7, 0, 3⟩,
      Select.signal KillSignal]
  exact ⟨h.1.mpr ⟨Select.signal KillSignal, by simp, Or.inl rfl⟩, by decide⟩

/-! ## Teardown (C8) -/

theorem die_of_not_alive {π : Type} (P : Processor π) (v : worker π)
    (h : v.status ≠ Alive) : die P v = (v, []) := by
  simp [die, isAlive, h]

theorem die_of_alive {π : Type} (P : Processor π) (w : worker π) (h : w.status = Alive) :
    die P w = ({ w with status := Zombie, processor := P.Destroy w.processor },
      [WorkerEvent.sleep Second, WorkerEvent.done true, WorkerEvent.closeDone,
       WorkerEvent.destroy]) := by
  simp [die, isAlive, h]

theorem dieTimes_of_not_alive {π : Type} (P : Processor π) (n : Nat) (v : worker π)
    (h : v.status ≠ Alive) : dieTimes P n v = (v, []) := by
  induction n with
  | zero => rfl
  | succ n ih => simp [dieTimes, die_of_not_alive P v h, ih]

theorem Zombie_ne_Alive : Zombie ≠ Alive := by decide

theorem die_status {π : Type} (P : Processor π) (v : worker π) :
    (die P v).1.status = Alive → v.status = Alive := by
  intro h
  by_contra hv
  rw [die_of_not_alive P v hv] at h
  exact hv h

theorem run_status {π : Type} (P : Processor π) (v : worker π) (evs : List Select) :
    (run P v evs).w.status = Alive → v.status = Alive := by
  intro h
  unfold run at h
  simp only at h
  split at h
  · have := die_status P _ h
    rwa [runLoop_status] at this
  · simp only at h
    rwa [runLoop_status] at h

/-- C8: the status of a worker goes from Alive to Zombie once and never back,
and `die` is idempotent. On an Alive worker `die` sets Zombie, sends one value
on `done`, closes it and calls `Destroy` once; on a worker that is not Alive
it changes nothing and does nothing; so any number of `die` calls, one or
more, send exactly one `done` and call `Destroy` exactly once. No operation
(`kill`, `wait`, `die`, a pass of the loop, `run`) yields an Alive worker from
one that is not. -/
theorem die_once_and_for_all {π : Type} (P : Processor π) (w : worker π) (n : Nat)
    (halive : w.status = Alive) :
    (die P w).1.status = Zombie ∧
    doneSends (die P w).2 = [true] ∧ destroyCalls (die P w).2 = 1 ∧
    (∀ v : worker π, v.status = Zombie → die P v = (v, [])) ∧
    die P (die P w).1 = ((die P w).1, []) ∧
    (dieTimes P (n + 1) w).1 = (die P w).1 ∧
    doneSends (dieTimes P (n + 1) w).2 = [true] ∧
    destroyCalls (dieTimes P (n + 1) w).2 = 1 ∧
    (∀ v : worker π,
      ((kill v).1.status = Alive → v.status = Alive) ∧
      (∀ b, (wait v b).2.1.status = Alive → v.status = Alive) ∧
      ((die P v).1.status = Alive → v.status = Alive) ∧
      (∀ c ev, (step P v c ev).w.status = Alive → v.status = Alive) ∧
      (∀ evs, (run P v evs).w.status = Alive → v.status = Alive)) := by
  have hdie := die_of_alive P w halive
  have hz : (die P w).1.status ≠ Alive := by rw [hdie]; exact Zombie_ne_Alive
  have htimes : dieTimes P (n + 1) w = ((die P w).1, (die P w).2) := by
    simp [dieTimes, dieTimes_of_not_alive P n _ hz]
  refine ⟨by rw [hdie], by rw [hdie]; rfl, by rw [hdie]; rfl, ?_, ?_, by rw [htimes],
    by rw [htimes, hdie]; rfl, by rw [htimes, hdie]; rfl, ?_⟩
  · intro v hv
    exact die_of_not_alive P v (by rw [hv]; exact Zombie_ne_Alive)
  · exact die_of_not_alive P _ hz
  · intro v
    refine ⟨fun h => h, fun _ h => h, die_status P v, ?_, run_status P v⟩
    intro c ev h
    rwa [step_status] at h

/-- Witness of C8: three `die` calls on a worker as constructed. -/
theorem die_once_and_for_all_witness :
    doneSends (dieTimes (⟨fun p => (none, p), fun p x => (Result.value x, p), fun p => p + 1⟩ :
      Processor Nat) 3 (newWorker "pool-worker-1" 50 0)).2 = [true] ∧
    destroyCalls (dieTimes (⟨fun p => (none, p), fun p x => (Result.value x, p),
      fun p => p + 1⟩ : Processor Nat) 3 (newWorker "pool-worker-1" 50 0)).2 = 1 ∧
    (dieTimes (⟨fun p => (none, p), fun p x => (Result.value x, p), fun p => p + 1⟩ :
      Processor Nat) 3 (newWorker "pool-worker-1" 50 0)).1.processor = 1 := by
  have h := die_once_and_for_all (⟨fun p => (none, p), fun p x => (Result.value x, p),
    fun p => p + 1⟩ : Processor Nat) (newWorker "pool-worker-1" 50 0) 2 rfl
  exact ⟨h.2.2.2.2.2.2.1, h.2.2.2.2.2.2.2.1, by decide⟩

/-! ## `Destroy` (C9) -/

theorem Inv_initial (ws : List String) : Inv ws (initial ws) where
  count_eq := rfl
  spawned := ⟨[], by simp [initial]⟩
  todo_nil := by simp [initial]
  kills := by simp [initial, killsOf]
  awaits := by simp [initial, awaitedOf]
  reports := by simp [initial, reportsOf]
  queue := by simp [initial, reportsOf, deletesOf]
  no_delete := by simp [initial, deletesOf]
  idx := by simp [initial]
  map := by simp [initial, deletesOf]
  not_closed := by simp [initial]
  closed := by simp [initial]

/-- Once the collecting loop has run `ws.length` times, every registered
worker has its task over and its uuid deleted, and no other task exists. -/
theorem Inv.all_reported {ws : List String} {s : DestroyState} (h : Inv ws s)
    (hmain : s.main ≠ MainPc.spawning) (hi : ws.length ≤ s.i) :
    (∀ u, u ∈ ws → s.helper u = HelperPc.reported ∧ u ∈ deletesOf s.trace) ∧
    (∀ u, u ∉ ws → s.helper u = HelperPc.idle) := by
  obtain ⟨sp, hsp, hhelper⟩ := h.spawned
  have hrep : ∀ u, u ∈ reportsOf s.trace → s.helper u = HelperPc.reported := by
    intro u hu
    by_contra hne
    have := h.reports u
    rw [if_neg hne] at this
    exact (List.count_pos_iff.mpr hu).ne' this
  have hRnd : (reportsOf s.trace).Nodup := by
    rw [List.nodup_iff_count_le_one]
    intro u
    rw [h.reports u]
    split <;> omega
  have hDnd : (deletesOf s.trace).Nodup := by
    rw [h.queue] at hRnd
    exact (List.nodup_append.mp hRnd).1
  have hDsub : deletesOf s.trace ⊆ ws := by
    intro u hu
    have hr : s.helper u = HelperPc.reported :=
      hrep u (by rw [h.queue]; exact List.mem_append_left _ hu)
    have : u ∈ sp := (hhelper u).mp (by rw [hr]; decide)
    rw [hsp]
    exact List.mem_append_left _ this
  have hperm : (deletesOf s.trace).Perm ws :=
    (List.subperm_of_subset hDnd hDsub).perm_of_length_le (by rw [← h.idx hmain]; exact hi)
  constructor
  · intro u hu
    have hD : u ∈ deletesOf s.trace := hperm.mem_iff.mpr hu
    exact ⟨hrep u (by rw [h.queue]; exact List.mem_append_left _ hD), hD⟩
  · intro u hu
    by_contra hne
    exact hu (by rw [hsp]; exact List.mem_append_left _ ((hhelper u).mp hne))

theorem Inv.helper_of_returned {ws : List String} {s : DestroyState} (h : Inv ws s)
    (hret : s.main = MainPc.returned) (u : String) :
    s.helper u = HelperPc.reported ∨ s.helper u = HelperPc.idle := by
  have hall := h.all_reported (by rw [hret]; decide) (h.closed hret).2.1
  by_cases hu : u ∈ ws
  · exact Or.inl (hall.1 u hu).1
  · exact Or.inr (hall.2 u hu)

theorem Inv_mainStep {ws : List String} {s s' : DestroyState} (h : Inv ws s)
    (hnd : ws.Nodup) (hstep : mainStep s = some s') : Inv ws s' := by
  unfold mainStep at hstep
  cases hm : s.main with
  | spawning =>
    rw [hm] at hstep
    simp only at hstep
    cases ht : s.todo with
    | nil =>
      rw [ht] at hstep
      simp only [Option.some.injEq] at hstep
      subst hstep
      exact
        { count_eq := h.count_eq
          spawned := by simpa [ht] using h.spawned
          todo_nil := fun _ => rfl
          kills := h.kills
          awaits := h.awaits
          reports := h.reports
          queue := h.queue
          no_delete := by simp
          idx := fun _ => by simp [h.no_delete hm]
          map := h.map
          not_closed := fun _ => h.not_closed (by rw [hm]; decide)
          closed := by simp }
    | cons u rest =>
      rw [ht] at hstep
      simp only [Option.some.injEq] at hstep
      subst hstep
      obtain ⟨sp, hsp, hhelper⟩ := h.spawned
      rw [ht] at hsp
      have hu : u ∉ sp := by
        rw [hsp] at hnd
        have := (List.nodup_append.mp hnd).2.2
        intro hmem
        exact this hmem (List.mem_cons_self _ _)
      have hidle : s.helper u = HelperPc.idle := by
        by_contra hne
        exact hu ((hhelper u).mp hne)
      have hupd : ∀ x, Function.update s.helper u HelperPc.started x =
          if x = u then HelperPc.started else s.helper x := by
        intro x
        by_cases hx : x = u
        · subst hx; simp
        · simp [Function.update_noteq hx, hx]
      exact
        { count_eq := h.count_eq
          spawned := ⟨sp ++ [u], by simp [hsp], by
            intro x
            simp only [hupd]
            by_cases hx : x = u
            · subst hx; simp
            · simp [hx, hhelper x]⟩
          todo_nil := fun hne => absurd rfl hne
          kills := by
            intro x
            simp only [hupd, killsOf, List.filterMap_append]
            have := h.kills x
            simp only [killsOf] at this
            by_cases hx : x = u
            · subst hx; simp [this, hidle]
            · simp [this, hx]
          awaits := by
            intro x
            simp only [hupd, awaitedOf, List.filterMap_append]
            have := h.awaits x
            simp only [awaitedOf] at this
            by_cases hx : x = u
            · subst hx; simp [this, hidle]
            · simp [this, hx]
          reports := by
            intro x
            simp only [hupd, reportsOf, List.filterMap_append]
            have := h.reports x
            simp only [reportsOf] at this
            by_cases hx : x = u
            · subst hx; simp [this, hidle]
            · simp [this, hx]
          queue := by
            have := h.queue
            simp only [reportsOf, deletesOf] at this ⊢
            simp [List.filterMap_append, this]
          no_delete := fun _ => by
            have := h.no_delete hm
            simp only [deletesOf] at this ⊢
            simp [List.filterMap_append, this]
          idx := fun hne => absurd rfl hne
          map := by
            intro x
            have := h.map x
            simp only [deletesOf] at this ⊢
            simp [List.filterMap_append, this]
          not_closed := fun _ => by
            have := h.not_closed (by rw [hm]; decide)
            simp [this]
          closed := fun hr => by simp at hr }
  | collecting =>
    rw [hm] at hstep
    simp only at hstep
    have hns : s.main ≠ MainPc.spawning := by rw [hm]; decide
    by_cases hi : s.i < s.workersCount
    · rw [if_pos hi] at hstep
      cases hb : s.unregisteredWorkers with
      | nil => rw [hb] at hstep; cases hstep
      | cons u rest =>
        rw [hb] at hstep
        simp only [Option.some.injEq] at hstep
        subst hstep
        exact
          { count_eq := h.count_eq
            spawned := h.spawned
            todo_nil := fun _ => h.todo_nil hns
            kills := by
              intro x
              have := h.kills x
              simp only [killsOf] at this ⊢
              simp [List.filterMap_append, this]
            awaits := by
              intro x
              have := h.awaits x
              simp only [awaitedOf] at this ⊢
              simp [List.filterMap_append, this]
            reports := by
              intro x
              have := h.reports x
              simp only [reportsOf] at this ⊢
              simp [List.filterMap_append, this]
            queue := by
              have := h.queue
              rw [hb] at this
              simp only [reportsOf, deletesOf] at this ⊢
              simp [List.filterMap_append, this]
            no_delete := fun hs => by simp at hs
            idx := fun _ => by
              have := h.idx hns
              simp only [deletesOf] at this ⊢
              simp [List.filterMap_append, this]
            map := by
              intro x
              have := h.map x
              simp only [deletesOf] at this ⊢
              simp only [List.filterMap_append, List.mem_filter, this, List.mem_append]
              simp
              tauto
            not_closed := fun _ => by
              have := h.not_closed (by rw [hm]; decide)
              simp [this]
            closed := fun hr => by simp at hr }
    · rw [if_neg hi] at hstep
      by_cases hc : s.jobsClosed = true
      · rw [if_pos hc] at hstep; cases hstep
      · rw [if_neg hc] at hstep
        simp only [Option.some.injEq] at hstep
        subst hstep
        exact
          { count_eq := h.count_eq
            spawned := h.spawned
            todo_nil := fun _ => h.todo_nil hns
            kills := by
              intro x
              have := h.kills x
              simp only [killsOf] at this ⊢
              simp [List.filterMap_append, this]
            awaits := by
              intro x
              have := h.awaits x
              simp only [awaitedOf] at this ⊢
              simp [List.filterMap_append, this]
            reports := by
              intro x
              have := h.reports x
              simp only [reportsOf] at this ⊢
              simp [List.filterMap_append, this]
            queue := by
              have := h.queue
              simp only [reportsOf, deletesOf] at this ⊢
              simp [List.filterMap_append, this]
            no_delete := by simp
            idx := fun _ => by
              have := h.idx hns
              simp only [deletesOf] at this ⊢
              simp [List.filterMap_append, this]
            map := by
              intro x
              have := h.map x
              simp only [deletesOf] at this ⊢
              simp [List.filterMap_append, this]
            not_closed := by simp
            closed := fun _ => ⟨rfl, by
              have := h.count_eq
              simp only
              omega, s.trace, rfl, h.not_closed (by rw [hm]; decide)⟩ }
  | returned =>
    rw [hm] at hstep
    cases hstep

theorem update_helper (f : String → HelperPc) (u : String) (pc : HelperPc) (x : String) :
    Function.update f u pc x = if x = u then pc else f x := by
  by_cases hx : x = u
  · subst hx; simp
  · simp [Function.update_noteq hx, hx]

theorem Inv_helperStep {ws : List String} {s s' : DestroyState} (h : Inv ws s) (u : String)
    (hstep : helperStep s u = some s') : Inv ws s' := by
  have hnr : s.helper u ≠ HelperPc.reported → s.helper u ≠ HelperPc.idle →
      s.main ≠ MainPc.returned := by
    intro h1 h2 hret
    rcases h.helper_of_returned hret u with h3 | h3
    · exact h1 h3
    · exact h2 h3
  obtain ⟨sp, hsp, hhelper⟩ := h.spawned
  unfold helperStep at hstep
  cases hpc : s.helper u with
  | idle => rw [hpc] at hstep; cases hstep
  | reported => rw [hpc] at hstep; cases hstep
  | started =>
    have hmain := hnr (by rw [hpc]; decide) (by rw [hpc]; decide)
    rw [hpc] at hstep
    simp only at hstep
    split at hstep
    · simp only [Option.some.injEq] at hstep
      subst hstep
      exact
        { count_eq := h.count_eq
          spawned := ⟨sp, hsp, by
            intro x
            simp only [update_helper]
            by_cases hx : x = u
            · subst hx; simpa [hpc] using hhelper x
            · simp [hx, hhelper x]⟩
          todo_nil := h.todo_nil
          kills := by
            intro x
            have := h.kills x
            simp only [killsOf] at this
            simp only [update_helper, killsOf, List.filterMap_append, List.count_append, this]
            by_cases hx : x = u
            · subst hx; simp [hpc]
            · simp [hx, Ne.symm hx]
          awaits := by
            intro x
            have := h.awaits x
            simp only [awaitedOf] at this
            simp only [update_helper, awaitedOf, List.filterMap_append, List.count_append, this]
            by_cases hx : x = u
            · subst hx; simp [hpc]
            · simp [hx]
          reports := by
            intro x
            have := h.reports x
            simp only [reportsOf] at this
            simp only [update_helper, reportsOf, List.filterMap_append, List.count_append, this]
            by_cases hx : x = u
            · subst hx; simp [hpc]
            · simp [hx]
          queue := by
            have := h.queue
            simp only [reportsOf, deletesOf] at this ⊢
            simp [List.filterMap_append, this]
          no_delete := fun hs => by
            have := h.no_delete hs
            simp only [deletesOf] at this ⊢
            simp [List.filterMap_append, this]
          idx := fun hs => by
            have := h.idx hs
            simp only [deletesOf] at this ⊢
            simp [List.filterMap_append, this]
          map := by
            intro x
            have := h.map x
            simp only [deletesOf] at this ⊢
            simp [List.filterMap_append, this]
          not_closed := fun hr => by
            have := h.not_closed hr
            simp [this]
          closed := fun hr => absurd hr hmain }
    · cases hstep
  | killed =>
    have hmain := hnr (by rw [hpc]; decide) (by rw [hpc]; decide)
    rw [hpc] at hstep
    simp only at hstep
    have key : ∀ c : String → WorkerChans, Inv ws
        { s with
          chans := c
          helper := Function.update s.helper u HelperPc.waited
          trace := s.trace ++ [DestroyEvent.awaited u] } := by
      intro c
      exact
        { count_eq := h.count_eq
          spawned := ⟨sp, hsp, by
            intro x
            simp only [update_helper]
            by_cases hx : x = u
            · subst hx; simpa [hpc] using hhelper x
            · simp [hx, hhelper x]⟩
          todo_nil := h.todo_nil
          kills := by
            intro x
            have := h.kills x
            simp only [killsOf] at this
            simp only [update_helper, killsOf, List.filterMap_append, List.count_append, this]
            by_cases hx : x = u
            · subst hx; simp [hpc]
            · simp [hx]
          awaits := by
            intro x
            have := h.awaits x
            simp only [awaitedOf] at this
            simp only [update_helper, awaitedOf, List.filterMap_append, List.count_append, this]
            by_cases hx : x = u
            · subst hx; simp [hpc]
            · simp [hx, Ne.symm hx]
          reports := by
            intro x
            have := h.reports x
            simp only [reportsOf] at this
            simp only [update_helper, reportsOf, List.filterMap_append, List.count_append, this]
            by_cases hx : x = u
            · subst hx; simp [hpc]
            · simp [hx]
          queue := by
            have := h.queue
            simp only [reportsOf, deletesOf] at this ⊢
            simp [List.filterMap_append, this]
          no_delete := fun hs => by
            have := h.no_delete hs
            simp only [deletesOf] at this ⊢
            simp [List.filterMap_append, this]
          idx := fun hs => by
            have := h.idx hs
            simp only [deletesOf] at this ⊢
            simp [List.filterMap_append, this]
          map := by
            intro x
            have := h.map x
            simp only [deletesOf] at this ⊢
            simp [List.filterMap_append, this]
          not_closed := fun hr => by
            have := h.not_closed hr
            simp [this]
          closed := fun hr => absurd hr hmain }
    split at hstep
    · simp only [Option.some.injEq] at hstep
      subst hstep
      exact key _
    · split at hstep
      · simp only [Option.some.injEq] at hstep
        subst hstep
        exact key _
      · cases hstep
  | waited =>
    have hmain := hnr (by rw [hpc]; decide) (by rw [hpc]; decide)
    rw [hpc] at hstep
    simp only at hstep
    split at hstep
    · simp only [Option.some.injEq] at hstep
      subst hstep
      exact
        { count_eq := h.count_eq
          spawned := ⟨sp, hsp, by
            intro x
            simp only [update_helper]
            by_cases hx : x = u
            · subst hx; simpa [hpc] using hhelper x
            · simp [hx, hhelper x]⟩
          todo_nil := h.todo_nil
          kills := by
            intro x
            have := h.kills x
            simp only [killsOf] at this
            simp only [update_helper, killsOf, List.filterMap_append, List.count_append, this]
            by_cases hx : x = u
            · subst hx; simp [hpc]
            · simp [hx]
          awaits := by
            intro x
            have := h.awaits x
            simp only [awaitedOf] at this
            simp only [update_helper, awaitedOf, List.filterMap_append, List.count_append, this]
            by_cases hx : x = u
            · subst hx; simp [hpc]
            · simp [hx]
          reports := by
            intro x
            have := h.reports x
            simp only [reportsOf] at this
            simp only [update_helper, reportsOf, List.filterMap_append, List.count_append, this]
            by_cases hx : x = u
            · subst hx; simp [hpc]
            · simp [hx, Ne.symm hx]
          queue := by
            have := h.queue
            simp only [reportsOf, deletesOf] at this ⊢
            simp [List.filterMap_append, this]
          no_delete := fun hs => by
            have := h.no_delete hs
            simp only [deletesOf] at this ⊢
            simp [List.filterMap_append, this]
          idx := fun hs => by
            have := h.idx hs
            simp only [deletesOf] at this ⊢
            simp [List.filterMap_append, this]
          map := by
            intro x
            have := h.map x
            simp only [deletesOf] at this ⊢
            simp [List.filterMap_append, this]
          not_closed := fun hr => by
            have := h.not_closed hr
            simp [this]
          closed := fun hr => absurd hr hmain }
    · cases hstep

theorem Inv_chans {ws : List String} {s : DestroyState} (h : Inv ws s)
    (c : String → WorkerChans) : Inv ws { s with chans := c } :=
  { count_eq := h.count_eq
    spawned := h.spawned
    todo_nil := h.todo_nil
    kills := h.kills
    awaits := h.awaits
    reports := h.reports
    queue := h.queue
    no_delete := h.no_delete
    idx := h.idx
    map := h.map
    not_closed := h.not_closed
    closed := h.closed }

theorem Inv_next {ws : List String} {s s' : DestroyState} (h : Inv ws s) (hnd : ws.Nodup)
    (a : Action) (hstep : next s a = some s') : Inv ws s' := by
  cases a with
  | main => exact Inv_mainStep h hnd hstep
  | helper u => exact Inv_helperStep h u hstep
  | workerSignal u =>
    simp only [next, workerSignalStep] at hstep
    split at hstep
    · split at hstep
      · split at hstep <;>
          (simp only [Option.some.injEq] at hstep; subst hstep; exact Inv_chans h _)
      · cases hstep
    · cases hstep
  | workerClosed u =>
    simp only [next, workerClosedStep] at hstep
    split at hstep
    · simp only [Option.some.injEq] at hstep
      subst hstep
      exact Inv_chans h _
    · cases hstep

theorem Inv_runSchedule {ws : List String} (hnd : ws.Nodup) (acts : List Action) :
    ∀ s, Inv ws s → Inv ws (runSchedule s acts) := by
  induction acts with
  | nil => intro s h; exact h
  | cons a rest ih =>
    intro s h
    simp only [runSchedule, List.foldl_cons]
    cases hn : next s a with
    | none => simpa [runSchedule] using ih s h
    | some s' => simpa [runSchedule] using ih s' (Inv_next h hnd a hn)

theorem ChansInv_initial (ws : List String) : ChansInv (initial ws) := by
  intro u
  simp [initial]

theorem diedChans_status (c : WorkerChans) (h : c.status = Alive) :
    (diedChans c).status = Zombie := by
  simp [diedChans, h]

theorem ChansInv_next {s s' : DestroyState} (h : ChansInv s) (a : Action)
    (hstep : next s a = some s') : ChansInv s' := by
  cases a with
  | main =>
    simp only [next, mainStep] at hstep
    split at hstep
    · split at hstep
      · rename_i u0 rest0 _
        simp only [Option.some.injEq] at hstep
        subst hstep
        intro x
        refine ⟨(h x).1, ?_⟩
        simp only [update_helper]
        by_cases hx : x = u0
        · simp [hx]
        · simpa [hx] using (h x).2
      · simp only [Option.some.injEq] at hstep
        subst hstep
        exact h
    · split at hstep
      · split at hstep
        · simp only [Option.some.injEq] at hstep
          subst hstep
          exact h
        · cases hstep
      · split at hstep
        · cases hstep
        · simp only [Option.some.injEq] at hstep
          subst hstep
          exact h
    · cases hstep
  | helper u =>
    simp only [next, helperStep] at hstep
    split at hstep
    · cases hstep
    · split at hstep
      · simp only [Option.some.injEq] at hstep
        subst hstep
        intro x
        by_cases hx : x = u
        · subst hx
          simpa using (h x).1
        · simpa [update_helper, Function.update_noteq hx, hx] using h x
      · cases hstep
    · rename_i hpc
      split at hstep
      · rename_i v rest hd
        simp only [Option.some.injEq] at hstep
        subst hstep
        intro x
        by_cases hx : x = u
        · subst hx
          have hz : (s.chans x).status = Zombie := (h x).1 (Or.inl (by rw [hd]; simp))
          simp [hz]
        · simpa [update_helper, Function.update_noteq hx, hx] using h x
      · split at hstep
        · rename_i hc
          simp only [Option.some.injEq] at hstep
          subst hstep
          intro x
          by_cases hx : x = u
          · subst hx
            have hz : (s.chans x).status = Zombie := (h x).1 (Or.inr hc)
            exact ⟨(h x).1, fun _ => hz⟩
          · simpa [update_helper, hx] using h x
        · cases hstep
    · rename_i hpc
      split at hstep
      · simp only [Option.some.injEq] at hstep
        subst hstep
        intro x
        by_cases hx : x = u
        · subst hx
          have hz : (s.chans x).status = Zombie := (h x).2 (Or.inl hpc)
          exact ⟨(h x).1, fun _ => hz⟩
        · simpa [update_helper, hx] using h x
      · cases hstep
    · cases hstep
  | workerSignal u =>
    simp only [next, workerSignalStep] at hstep
    split at hstep
    · rename_i hal
      split at hstep
      · split at hstep
        · simp only [Option.some.injEq] at hstep
          subst hstep
          intro x
          by_cases hx : x = u
          · subst hx
            rename_i sig0 rest0 _ _
            have hz : (diedChans { s.chans x with signals := rest0 }).status = Zombie :=
              diedChans_status _ hal
            simp only [Function.update_same]
            exact ⟨fun _ => hz, fun _ => hz⟩
          · simpa [Function.update_noteq hx] using h x
        · simp only [Option.some.injEq] at hstep
          subst hstep
          intro x
          by_cases hx : x = u
          · subst hx
            simpa using h x
          · simpa [Function.update_noteq hx] using h x
      · cases hstep
    · cases hstep
  | workerClosed u =>
    simp only [next, workerClosedStep] at hstep
    split at hstep
    · rename_i hal
      simp only [Option.some.injEq] at hstep
      subst hstep
      intro x
      by_cases hx : x = u
      · subst hx
        have hz : (diedChans (s.chans x)).status = Zombie := diedChans_status _ hal.1
        simp only [Function.update_same]
        exact ⟨fun _ => hz, fun _ => hz⟩
      · simpa [Function.update_noteq hx] using h x
    · cases hstep

theorem ChansInv_runSchedule (acts : List Action) :
    ∀ s, ChansInv s → ChansInv (runSchedule s acts) := by
  induction acts with
  | nil => intro s h; exact h
  | cons a rest ih =>
    intro s h
    simp only [runSchedule, List.foldl_cons]
    cases hn : next s a with
    | none => simpa [runSchedule] using ih s h
    | some s' => simpa [runSchedule] using ih s' (ChansInv_next h a hn)

/-- C9: in every schedule of `Destroy`, its tasks and the workers, once
`Destroy` has returned the worker map is empty; every registered worker was
sent exactly one kill signal, reported done exactly once and is a Zombie; and
`close(e.jobs)` is the last thing `Destroy` and its tasks did, after the
uuid of every registered worker was deleted from the map. -/
theorem Destroy_closes_queue_last (ws : List String) (hnd : ws.Nodup) (acts : List Action)
    (hret : (Destroy ws acts).main = MainPc.returned) :
    (Destroy ws acts).workers = [] ∧
    (∀ u, u ∈ ws →
      (killsOf (Destroy ws acts).trace).count u = 1 ∧
      (awaitedOf (Destroy ws acts).trace).count u = 1 ∧
      ((Destroy ws acts).chans u).status = Zombie) ∧
    (Destroy ws acts).jobsClosed = true ∧
    ∃ before,
      (Destroy ws acts).trace = before ++ [DestroyEvent.closeJobs] ∧
      DestroyEvent.closeJobs ∉ before ∧
      (deletesOf before).Perm ws := by
  have h := Inv_runSchedule hnd acts (initial ws) (Inv_initial ws)
  have hc := ChansInv_runSchedule acts (initial ws) (ChansInv_initial ws)
  unfold Destroy at hret ⊢
  generalize runSchedule (initial ws) acts = s at h hc hret ⊢
  have hns : s.main ≠ MainPc.spawning := by rw [hret]; decide
  obtain ⟨hjobs, hi, before, htrace, hbefore⟩ := h.closed hret
  have hall := h.all_reported hns hi
  refine ⟨?_, ?_, hjobs, before, htrace, hbefore, ?_⟩
  · rw [List.eq_nil_iff_forall_not_mem]
    intro u hu
    have := (h.map u).mp hu
    exact this.2 (hall.1 u this.1).2
  · intro u hu
    have hr := (hall.1 u hu).1
    refine ⟨?_, ?_, (hc u).2 (Or.inr hr)⟩
    · rw [h.kills u]; simp [hr]
    · rw [h.awaits u]; simp [hr]
  · have hD : deletesOf s.trace = deletesOf before := by
      rw [htrace]; simp [deletesOf, List.filterMap_append]
    rw [← hD]
    have hRnd : (reportsOf s.trace).Nodup := by
      rw [List.nodup_iff_count_le_one]
      intro u
      rw [h.reports u]
      split <;> omega
    have hDnd : (deletesOf s.trace).Nodup := by
      rw [h.queue] at hRnd
      exact (List.nodup_append.mp hRnd).1
    rw [List.perm_ext_iff_of_nodup hDnd hnd]
    intro u
    constructor
    · intro hu
      by_contra hne
      have hidle := hall.2 u hne
      have hcount := h.reports u
      rw [hidle] at hcount
      simp only [reduceCtorEq, if_false] at hcount
      have : u ∈ reportsOf s.trace := by rw [h.queue]; exact List.mem_append_left _ hu
      exact (List.count_pos_iff.mpr this).ne' hcount
    · intro hu; exact (hall.1 u hu).2

/-- Witness of C9: two workers; the tasks of `b` and `a` interleave and the
uuid of `b` arrives first. -/
theorem Destroy_closes_queue_last_witness :
    (Destroy ["a", "b"]
      [Action.main, Action.main, Action.main, Action.helper "b", Action.helper "a",
        Action.workerSignal "a", Action.workerSignal "b", Action.helper "b",
        Action.helper "a", Action.helper "b", Action.helper "a",
        Action.main, Action.main, Action.main]).workers = [] ∧
    (Destroy ["a", "b"]
      [Action.main, Action.main, Action.main, Action.helper "b", Action.helper "a",
        Action.workerSignal "a", Action.workerSignal "b", Action.helper "b",
        Action.helper "a", Action.helper "b", Action.helper "a",
        Action.main, Action.main, Action.main]).trace =
      [DestroyEvent.spawn "a", DestroyEvent.spawn "b", DestroyEvent.kill "b",
        DestroyEvent.kill "a", DestroyEvent.awaited "b", DestroyEvent.awaited "a",
        DestroyEvent.report "b", DestroyEvent.report "a", DestroyEvent.delete "b",
        DestroyEvent.delete "a", DestroyEvent.closeJobs] := by
  have h := Destroy_closes_queue_last ["a", "b"] (by decide)
    [Action.main, Action.main, Action.main, Action.helper "b", Action.helper "a",
      Action.workerSignal "a", Action.workerSignal "b", Action.helper "b",
      Action.helper "a", Action.helper "b", Action.helper "a",
      Action.main, Action.main, Action.main] (by decide)
  exact ⟨h.1, by decide⟩

end Gojobs
